import Mathlib

/-!
Verification of the worktree-tools configuration utilities.

This file gives a shallow embedding of the two Python scripts
`scripts/normalize_config.py` and `scripts/validate_config.py`.
Documents are modelled as lists of lines, a line being a list of
characters.  The validator and the merge driver loop work line by
line in the source (they split their input on newline characters and
re-join at the end), so for them the line-level view is exact.  Value
extraction, however, runs `re.findall` with `re.MULTILINE` over the
raw file text, and its negated character classes `[^\]]` and `[^"]`
also match newline, so a keyed match may span lines; it is therefore
modelled by a scanner over the joined text of the document
(`scanKeyed`), with a line-confined reading (`lineEntries`) used as a
proof device: on documents whose keyed matches all close on the line
they start on, the two agree (`scan_eq_lineEntries`).  The remaining
patterns (`^VAR=(.*)$` and the line-anchored validator patterns)
cannot cross newlines and are modelled line by line.
-/

namespace WorktreeTools

abbrev Line := List Char

abbrev Document := List Line

/-- Character data of a string literal. -/
def strL (s : String) : Line := s.data

/-- Boolean test that the first list is a prefix of the second
(models Python `str.startswith`, and a `^`-anchored pattern attempt
taken at a line-start position of the text). -/
def isPre : Line → Line → Bool
  | [], _ => true
  | _ :: _, [] => false
  | a :: as, b :: bs => if a = b then isPre as bs else false

/-- Boolean substring test (models the Python `in` operator on strings). -/
def containsSub (s : Line) : Line → Bool
  | [] => s.isEmpty
  | c :: l => isPre s (c :: l) || containsSub s l

/-- Whitespace characters removed by Python `str.strip()`. -/
def isPyWhite (c : Char) : Bool :=
  c = ' ' || c = '\t' || c = '\n' || c = '\r' || c = '\x0b' || c = '\x0c'

/-- A line whose `strip()` is empty. -/
def isBlank (l : Line) : Bool := l.all isPyWhite

def eqc : Char := '='

def lbrack : Char := '['

def mapsName : Line := strL "REPO_MAPPINGS"

def ideName : Line := strL "REPO_IDE_CONFIGS"

def cfgName : Line := strL "REPO_CONFIGS"

def modsName : Line := strL "REPO_MODULES"

def gitUserName : Line := strL "GIT_USERNAME"

def branchPreName : Line := strL "BRANCH_PREFIX"

def baseDevName : Line := strL "BASE_DEV_PATH"

def cfgVerName : Line := strL "CONFIG_VERSION"

/-- The four known scalar settings, in the iteration order of
`_extract_user_values` (normalize_config.py line 37). -/
def scalarVars : List Line := [gitUserName, branchPreName, baseDevName, cfgVerName]

/-- Remainder of `l` after prefix `p`, if `p` is a prefix. -/
def dropPre : Line → Line → Option Line
  | [], l => some l
  | _ :: _, [] => none
  | a :: as, b :: bs => if a = b then dropPre as bs else none

def newl : Char := '\n'

/-- The raw text of a document: its lines joined by newline
characters.  The scripts read the whole file as one string and split
it on newlines, so a document stands for the string `joinDoc doc`. -/
def joinDoc : Document → Line
  | [] => []
  | [l] => l
  | l :: d => l ++ newl :: joinDoc d

/-- One match attempt of the pattern `NAME\[([^\]]+)\]="([^"]*)"`
(normalize_config.py lines 44, 53, 61, 68) at the current position of
the raw text.  The key is the maximal run of non-`]` characters after
`NAME[` and must be nonempty; the value is the maximal run of
non-quote characters after `="` and must be closed by a quote.  Both
negated classes also match newline, so a match may span lines.
Returns the two groups and the remainder of the text after the
match. -/
def matchKeyedAt (name : Line) (s : Line) : Option ((Line × Line) × Line) :=
  match dropPre (name ++ [lbrack]) s with
  | none => none
  | some r1 =>
    let k := r1.takeWhile fun c => !(c = ']')
    if k.isEmpty then none
    else
      match r1.dropWhile fun c => !(c = ']') with
      | ']' :: '=' :: '"' :: r2 =>
        match r2.dropWhile fun c => !(c = '"') with
        | '"' :: r3 => some ((k, r2.takeWhile fun c => !(c = '"')), r3)
        | _ => none
      | _ => none

/-- The groups of one match attempt at the start of a single line: the
line-confined reading of the keyed pattern, used as a proof device.
On a tame document (`scan_eq_lineEntries` below) the raw-text scan
degenerates to this per-line parse. -/
def parseKeyed (name : Line) (l : Line) : Option (Line × Line) :=
  (matchKeyedAt name l).map Prod.fst

/-- Advance the raw-text cursor past the next newline: the next
position at which the `^` anchor of the multiline patterns can match.
`none` when no newline remains, ending the scan. -/
def dropLine : Line → Option Line
  | [] => none
  | c :: s => if c = newl then some s else dropLine s

/-- The scan of multiline `re.findall` for the keyed pattern: a match
is attempted at each line start of the raw text; after a successful
match the scan resumes at the first line start past the end of the
match, so a match spanning several lines consumes the line starts
inside it.  The fuel only bounds the recursion depth: every recursive
call consumes a newline of the text, so the number of lines of the
document is always enough fuel. -/
def scanKeyed (name : Line) : Nat → Line → List (Line × Line)
  | 0, _ => []
  | fuel + 1, s =>
    match matchKeyedAt name s with
    | some (kv, rest) =>
      kv ::
        (match dropLine rest with
         | some t => scanKeyed name fuel t
         | none => [])
    | none =>
      match dropLine s with
      | some t => scanKeyed name fuel t
      | none => []

/-- All matches of the keyed pattern for `name` over the raw text of
the document, in match order: models
`re.findall(pattern, config, re.MULTILINE)` of normalize_config.py
lines 45, 54, 62 and 69. -/
def rawEntries (name : Line) (doc : Document) : List (Line × Line) :=
  scanKeyed name doc.length (joinDoc doc)

/-- The line-confined reading of the scan: one parse attempt per line.
On tame documents this equals `rawEntries` (`scan_eq_lineEntries`). -/
def lineEntries (name : Line) (doc : Document) : List (Line × Line) :=
  doc.filterMap (parseKeyed name)

/-- A line without newline characters: a real text line. -/
def noNewline (l : Line) : Bool := l.all fun c => !(c = newl)

/-- Every keyed match for `name` starting on this line closes on this
line: either the line does not start with `NAME[`, or the line-local
parse succeeds.  A line violating this can start a match that spans
into the following lines of the raw text. -/
def keyClosed (name l : Line) : Bool :=
  !(isPre (name ++ [lbrack]) l) || (parseKeyed name l).isSome

/-- A tame line: a real text line on which every keyed match for the
four array names is line-confined. -/
def tameLine (l : Line) : Bool :=
  noNewline l && keyClosed mapsName l && keyClosed ideName l &&
    keyClosed cfgName l && keyClosed modsName l

/-- A tame document: every line is tame, so the raw-text scan of every
keyed pattern agrees with the line-by-line parse. -/
def tame (doc : Document) : Bool := doc.all tameLine

/-- Shape of a keyed entry extracted from a tame document: nonempty
key free of `]`, value free of `"`, both free of newlines. -/
def EntryWF (p : Line × Line) : Prop :=
  p.1 ≠ [] ∧ (∀ c ∈ p.1, c ≠ ']') ∧ (∀ c ∈ p.2, c ≠ '"') ∧
    noNewline p.1 = true ∧ noNewline p.2 = true

/-- First match of the multiline `re.search` for `^VAR=(.*)$` in the
document, returning the rest of the line (normalize_config.py
lines 38-41): since `.` does not match newline and `^` matches only
at line starts, the first match of the raw text is the first matching
line. -/
def findScalar (var : Line) (doc : Document) : Option Line :=
  (doc.find? fun l => isPre (var ++ [eqc]) l).map fun l => l.drop (var.length + 1)

/-- Reverse lookup `full_to_short` built from the mappings with
later entries overwriting earlier ones (normalize_config.py
lines 48-50): the last pair whose canonical name is `k` wins. -/
def fullToShort (maps : List (Line × Line)) (k : Line) : Option Line :=
  (maps.reverse.find? fun p => decide (p.2 = k)).map Prod.fst

/-- Key normalization: `full_to_short.get(key, key)`. -/
def resolveKey (maps : List (Line × Line)) (k : Line) : Line :=
  (fullToShort maps k).getD k

/-- Alias resolution applied to every key of an entry list. -/
def resolveEntries (maps entries : List (Line × Line)) : List (Line × Line) :=
  entries.map fun p => (resolveKey maps p.1, p.2)

/-- The record built by `ConfigNormalizer._extract_user_values`. -/
structure UserValues where
  simple : List (Line × Line)
  mappings : List (Line × Line)
  ide_configs : List (Line × Line)
  repo_configs : List (Line × Line)
  repo_modules : List (Line × Line)
deriving Repr, DecidableEq

/-- `ConfigNormalizer._extract_user_values` (normalize_config.py
lines 26-74). -/
def extractUserValues (config : Document) : UserValues :=
  let mappings := rawEntries mapsName config
  { simple := scalarVars.filterMap fun v => (findScalar v config).map fun w => (v, w)
    mappings := mappings
    ide_configs := resolveEntries mappings (rawEntries ideName config)
    repo_configs := resolveEntries mappings (rawEntries cfgName config)
    repo_modules := resolveEntries mappings (rawEntries modsName config) }

/-- The scalar replacement of `normalize` (normalize_config.py
lines 86-89): the first extracted setting whose `NAME=` starts the
line replaces the whole line. -/
def scalarSubst (simple : List (Line × Line)) (l : Line) : Line :=
  match simple.find? fun p => isPre (p.1 ++ [eqc]) l with
  | some p => p.1 ++ eqc :: p.2
  | none => l

/-- An emitted assignment line `NAME[key]="value"`. -/
def mkAssign (name : Line) (p : Line × Line) : Line :=
  name ++ lbrack :: (p.1 ++ ']' :: eqc :: '"' :: (p.2 ++ ['"']))

def emptyLine : Line := []

/-- The alias-table declaration-guard marker looked up with `in`
(normalize_config.py line 92). -/
def mapMarker : Line := strL "[[ -z $\x7b(t)REPO_MAPPINGS\x7d"

/-- The section-delimiter token looked up with `in`
(normalize_config.py line 106). -/
def sectDelim : Line := strL "==="

/-- The section-delimiter comment line of the template: `# ` followed by
77 `=` characters. -/
def delimLine : Line := strL "# " ++ List.replicate 77 eqc

def ideHdr : Line := strL "# Optional: IDE configuration"

def ciHdr : Line := strL "# Optional: CI commands"

def modHdr : Line := strL "# Optional: Modular builds"

def ideCmt : Line := strL "# REPO_IDE_CONFIGS["

def sectCmtHdr : Line := strL "# ==="

/-- Stop condition of the CI copy loop (normalize_config.py line 140). -/
def ciStop (l : Line) : Bool :=
  isPre (strL "# Android example:") l || isPre (strL "# REPO_CONFIGS[") l

/-- Example-line recognizer of the CI skip loop (lines 154-157). -/
def ciEx (l : Line) : Bool :=
  isPre (strL "# Android example:") l || isPre (strL "# iOS example:") l ||
    isPre (strL "# Web example:") l || isPre (strL "# REPO_CONFIGS[") l

/-- Stop condition of the modules copy loop (line 174). -/
def modStop (l : Line) : Bool :=
  isPre (strL "# Android modules:") l || isPre (strL "# REPO_MODULES[") l

/-- Example-line recognizer of the modules skip loop (lines 188-191). -/
def modEx (l : Line) : Bool :=
  isPre (strL "# Android modules:") l || isPre (strL "# iOS modules:") l ||
    isPre (strL "# Web packages:") l || isPre (strL "# REPO_MODULES[") l

/-- The mapping block emitted after the guard line (lines 97-100):
a blank line then one line per mapping, nothing if there are none. -/
def mapsBlock (uv : UserValues) : Document :=
  if uv.mappings.isEmpty then [] else emptyLine :: uv.mappings.map (mkAssign mapsName)

/-- The keyed-entry block emitted in the three optional sections
(lines 123-127, 145-149, 179-183): entries bracketed by blank lines,
nothing if there are none. -/
def bracketBlock (name : Line) (entries : List (Line × Line)) : Document :=
  if entries.isEmpty then [] else emptyLine :: (entries.map (mkAssign name) ++ [emptyLine])

/-- Tail handling shared by the CI and modules skip loops after the
contiguous example lines (lines 160-165 and 194-199): stop before a
`# ===` line; consume one blank line if a `# ===` line follows it;
otherwise stop without consuming. -/
def exampleTail : Document → Document
  | [] => []
  | a :: rest =>
    if isPre sectCmtHdr a then a :: rest
    else if isBlank a && (match rest with | b :: _ => isPre sectCmtHdr b | [] => false) then rest
    else a :: rest

/-- The driver loop of `ConfigNormalizer.normalize`
(normalize_config.py lines 82-203), as a recursion over the remaining
template lines.  Every branch mirrors the corresponding `continue`
block of the source.  The fuel argument only bounds the recursion
depth: every iteration of the source loop advances the cursor by at
least one line, so a fuel equal to the number of remaining lines is
never exhausted (`normLoop_eq_normLoopF` below). -/
def normLoopF (uv : UserValues) : Nat → Document → Document
  | _, [] => []
  | 0, _ :: _ => []
  | fuel + 1, l :: ls =>
    let line := scalarSubst uv.simple l
    if containsSub mapMarker line then
      line :: (mapsBlock uv ++ normLoopF uv fuel (ls.dropWhile fun x => !containsSub sectDelim x))
    else if isPre ideHdr line then
      line :: (ls.takeWhile (fun x => !isPre ideCmt x) ++
        (bracketBlock ideName uv.ide_configs ++
          normLoopF uv fuel ((ls.dropWhile fun x => !isPre ideCmt x).dropWhile fun x => isPre ideCmt x)))
    else if isPre ciHdr line then
      line :: (ls.takeWhile (fun x => !ciStop x) ++
        (bracketBlock cfgName uv.repo_configs ++
          normLoopF uv fuel (exampleTail ((ls.dropWhile fun x => !ciStop x).dropWhile ciEx))))
    else if isPre modHdr line then
      line :: (ls.takeWhile (fun x => !modStop x) ++
        (bracketBlock modsName uv.repo_modules ++
          normLoopF uv fuel (exampleTail ((ls.dropWhile fun x => !modStop x).dropWhile modEx))))
    else
      line :: normLoopF uv fuel ls

/-- The driver loop at its standard fuel. -/
def normLoop (uv : UserValues) (ls : Document) : Document :=
  normLoopF uv ls.length ls

/-- `ConfigNormalizer.normalize`: merge the user's extracted values
into the template document. -/
def normalize (user exampleDoc : Document) : Document :=
  normLoop (extractUserValues user) exampleDoc

/-! ## The structural validator (`scripts/validate_config.py`) -/

/-- The three arrays checked by `ConfigValidator._fix_missing_declarations`. -/
inductive ACat where
  | ide
  | cfg
  | mods
deriving Repr, DecidableEq, Fintype

def catName : ACat → Line
  | .ide => ideName
  | .cfg => cfgName
  | .mods => modsName

/-- Start-of-line assignment test `re.match(rf'^{array_name}\[', line)`
(validate_config.py line 77). -/
def isAssign (c : ACat) (l : Line) : Bool := isPre (catName c ++ [lbrack]) l

/-- The substring looked up to detect an existing declaration
(validate_config.py line 72). -/
def declSub (c : ACat) : Line := strL "declare -gA " ++ catName c

/-- The guard line inserted for a missing declaration
(validate_config.py lines 90, 100, 110). -/
def guardLine (c : ACat) : Line :=
  strL "[[ -z $\x7b(t)" ++ catName c ++ strL "\x7d ]] && declare -gA " ++ catName c

/-- The issue string recorded for a missing declaration
(validate_config.py lines 88, 98, 108). -/
def issueLine (c : ACat) : Line := strL "Missing " ++ catName c ++ strL " declaration"

/-- Update of the `declared` flags after an insertion. -/
def setDecl (d : ACat → Bool) (c : ACat) : ACat → Bool :=
  fun x => if x = c then true else d x

/-- Whether the insertion for category `c` fires on this line
(the common shape of the three `if` blocks, lines 86-113). -/
def catFire (needs decl : ACat → Bool) (l : Line) (c : ACat) : Bool :=
  needs c && !decl c && isAssign c l

/-- One iteration of the second pass of `_fix_missing_declarations`
(validate_config.py lines 82-116): the three category checks run in
the order IDE, CONFIGS, MODULES, each possibly inserting its guard
line and a blank line and recording its issue before the current line
is appended.  Returns (inserted lines, recorded issues, new flags). -/
def declStep (needs decl : ACat → Bool) (l : Line) :
    Document × List Line × (ACat → Bool) :=
  let p1 :=
    if catFire needs decl l .ide then
      ([guardLine .ide, emptyLine], [issueLine .ide], setDecl decl .ide)
    else ([], [], decl)
  let p2 :=
    if catFire needs p1.2.2 l .cfg then
      (p1.1 ++ [guardLine .cfg, emptyLine], p1.2.1 ++ [issueLine .cfg], setDecl p1.2.2 .cfg)
    else p1
  if catFire needs p2.2.2 l .mods then
    (p2.1 ++ [guardLine .mods, emptyLine], p2.2.1 ++ [issueLine .mods], setDecl p2.2.2 .mods)
  else p2

/-- The second pass of `_fix_missing_declarations` over the whole
document, threading the `declared` flags. -/
def fixDeclLoop (needs : ACat → Bool) : (ACat → Bool) → Document → Document × List Line
  | _, [] => ([], [])
  | decl, l :: ls =>
    let s := declStep needs decl l
    let r := fixDeclLoop needs s.2.2 ls
    (s.1 ++ l :: r.1, s.2.1 ++ r.2)

/-- First-pass flag: some line of the document is an assignment for `c`
(validate_config.py lines 76-78). -/
def needsOf (doc : Document) (c : ACat) : Bool := doc.any (isAssign c)

/-- First-pass flag: some line of the document contains the declaration
substring for `c` (validate_config.py lines 70-73). -/
def declaredOf (doc : Document) (c : ACat) : Bool :=
  doc.any fun l => containsSub (declSub c) l

/-- `ConfigValidator._fix_missing_declarations` (validate_config.py
lines 47-118), returning the rewritten document, the `fixed` flag and
the recorded issue strings (one per insertion). -/
def fixMissingDeclarations (doc : Document) : Document × Bool × List Line :=
  let r := fixDeclLoop (needsOf doc) (declaredOf doc) doc
  (r.1, !r.2.isEmpty, r.2)

/-- `ConfigValidator._fix_section_spacing` (validate_config.py
lines 120-147): the loop appends every line unchanged; the lookahead
starting at line 132 computes a condition but ends in `pass`, so the
pass never mutates and its `fixed` flag stays `False`. -/
def fixSectionSpacing : Document → Document × Bool
  | [] => ([], false)
  | l :: ls =>
    let r := fixSectionSpacing ls
    (l :: r.1, r.2)

/-- `ConfigValidator.validate_and_fix` at the document level
(validate_config.py lines 26-45): both passes composed, with
`had_issues` true when either pass fixed something, and the issue
strings accumulated by the instance. -/
def validateAndFix (doc : Document) : Document × Bool × List Line :=
  let r1 := fixMissingDeclarations doc
  let r2 := fixSectionSpacing r1.1
  (r2.1, r1.2.1 || r2.2, r1.2.2)

/-! ## The template document

The canonical template `config.zsh.example` as replicated verbatim by
the fixture `self.example_config` in
`scripts/test_normalize_config.py` (setUp, lines 13-110); the
trailing newline of the fixture yields a final empty line after
`split('\n')`. -/

def exampleConfig : Document :=
  [strL "#!/usr/bin/env zsh",
   strL "# Worktree Tools Configuration",
   strL "# Copy to: ~/.config/worktree-tools/config.zsh",
   strL "",
   strL "# Config version (for migrations)",
   strL "CONFIG_VERSION=1",
   strL "",
   delimLine,
   strL "# REQUIRED: Update these for your setup",
   delimLine,
   strL "",
   strL "GIT_USERNAME=\"$\x7bUSER\x7d\"",
   strL "",
   strL "# Branch prefix (set to \"\" for no prefix)",
   strL "# \"john\" creates: john/my-feature",
   strL "# \"\" creates: my-feature",
   strL "BRANCH_PREFIX=\"$\x7bUSER\x7d\"",
   strL "",
   strL "# Where you ran setup_repos.sh (contains .repos/ and worktrees/)",
   strL "# Examples: \"$HOME/work/mobile\", \"$HOME/dev\", \"$HOME/projects\"",
   strL "BASE_DEV_PATH=\"$HOME/dev\"",
   strL "",
   delimLine,
   strL "# Repository shortcuts",
   delimLine,
   strL "",
   strL "[[ -z $\x7b(t)REPO_MAPPINGS\x7d ]] && declare -gA REPO_MAPPINGS",
   strL "",
   strL "# Add your repos here:",
   strL "# REPO_MAPPINGS[shorthand]=\"Full-Repo-Name\"",
   strL "#",
   strL "# Examples:",
   strL "# REPO_MAPPINGS[acmd]=\"Company-Android\"",
   strL "# REPO_MAPPINGS[alib]=\"Company-Android-Library\"",
   strL "# REPO_MAPPINGS[icmd]=\"Company-iOS\"",
   strL "# REPO_MAPPINGS[ilib]=\"Company-iOS-Library\"",
   strL "",
   delimLine,
   strL "# Optional: IDE configuration (uncomment to enable 'ide' command)",
   delimLine,
   strL "",
   strL "# Opens the configured IDE when you run 'ide' from within a repo",
   strL "# Format: \"ide_type|workspace_path|fallback_command\"",
   strL "#",
   strL "# NOTE: You can use either shorthand OR full repo name as keys.",
   strL "#       Shorthand is recommended, but both work for backward compatibility.",
   strL "",
   strL "# REPO_IDE_CONFIGS[acmd]=\"android-studio||\"",
   strL "# REPO_IDE_CONFIGS[alib]=\"android-studio||\"",
   strL "# REPO_IDE_CONFIGS[icmd]=\"xcode-workspace|Company-iOS.xcworkspace|\"",
   strL "# REPO_IDE_CONFIGS[ilib]=\"xcode-package|.swiftpm/xcode/package.xcworkspace|swift package generate-xcodeproj\"",
   strL "",
   delimLine,
   strL "# Optional: CI commands (uncomment to enable ci/test/lint shortcuts)",
   delimLine,
   strL "",
   strL "# Enables running 'ci', 'test', or 'lint' from within a repo",
   strL "# Format: \"build_cmd|test_cmd|lint_cmd\"",
   strL "#",
   strL "# NOTE: You can use either shorthand OR full repo name as keys.",
   strL "#       Shorthand is recommended, but both work for backward compatibility.",
   strL "",
   strL "# Android example:",
   strL "# REPO_CONFIGS[acmd]=\"./gradlew --quiet assembleDebug|./gradlew --quiet testDebugUnitTest|./gradlew --quiet lintDebug detekt\"",
   strL "",
   strL "# iOS example:",
   strL "# REPO_CONFIGS[icmd]=\"bundle exec fastlane build|bundle exec fastlane unit_tests|swiftlint --strict\"",
   strL "",
   strL "# Web example:",
   strL "# REPO_CONFIGS[web]=\"npm run build|npm test|npm run lint\"",
   strL "",
   delimLine,
   strL "# Optional: Modular builds (uncomment to enable ci_modules/lint_modules)",
   delimLine,
   strL "",
   strL "# For monorepos with multiple modules - lets you select which ones to build/lint",
   strL "# Format: space-separated list of modules",
   strL "#",
   strL "# NOTE: You can use either shorthand OR full repo name as keys.",
   strL "#       Shorthand is recommended, but both work for backward compatibility.",
   strL "",
   strL "# Android modules:",
   strL "# REPO_MODULES[acmd]=\"app-core app-feature-auth app-feature-profile\"",
   strL "",
   strL "# iOS modules:",
   strL "# REPO_MODULES[icmd]=\"CoreModule AuthModule ProfileModule\"",
   strL "",
   strL "# Web packages:",
   strL "# REPO_MODULES[web]=\"packages/ui packages/api packages/utils\"",
   strL "",
   delimLine,
   strL "# Auto-computed paths (don't change unless you have custom structure)",
   delimLine,
   strL "",
   strL "BARE_REPOS_PATH=\"$BASE_DEV_PATH/.repos\"",
   strL "WORKTREES_PATH=\"$BASE_DEV_PATH/worktrees\"",
   strL "WORKTREE_TEMPLATES_PATH=\"$BASE_DEV_PATH/worktree_templates\"",
   strL ""]

/-! ## Concrete documents used as counterexamples and witnesses -/

/-- A user document whose alias table chains: shorthand `a` names
canonical `b`, while `b` is itself the shorthand of canonical `c`. -/
def chainUser : Document :=
  [strL "REPO_MAPPINGS[a]=\"b\"",
   strL "REPO_MAPPINGS[b]=\"c\"",
   strL "REPO_CONFIGS[c]=\"x\""]

/-- A user document whose `GIT_USERNAME` value contains the
alias-table declaration-guard marker text. -/
def markerUser : Document :=
  [strL "GIT_USERNAME=zz [[ -z $\x7b(t)REPO_MAPPINGS\x7d zz",
   strL "REPO_MAPPINGS[a]=\"b\""]

/-- A small ordinary user document. -/
def demoUser : Document :=
  [strL "#!/usr/bin/env zsh",
   strL "CONFIG_VERSION=1",
   strL "GIT_USERNAME=testuser",
   strL "BRANCH_PREFIX=testuser",
   strL "BASE_DEV_PATH=/home/test/dev",
   strL "",
   strL "[[ -z $\x7b(t)REPO_MAPPINGS\x7d ]] && declare -gA REPO_MAPPINGS",
   strL "REPO_MAPPINGS[acmd]=\"Company-Android\"",
   strL "REPO_MAPPINGS[icmd]=\"Company-iOS\"",
   strL "",
   strL "REPO_CONFIGS[Company-Android]=\"./gradlew build|./gradlew test|./gradlew lint\"",
   strL "REPO_CONFIGS[web]=\"npm run build|npm test|npm run lint\"",
   strL "",
   strL "REPO_IDE_CONFIGS[Company-iOS]=\"xcode-workspace|Company-iOS.xcworkspace|\"",
   strL "",
   strL "REPO_MODULES[acmd]=\"app-core app-auth\""]

/-- A document that assigns into the three arrays without declaring
them (as in test_validate_config.py, `test_all_missing_declarations`). -/
def undeclaredDoc : Document :=
  [strL "#!/usr/bin/env zsh",
   strL "[[ -z $\x7b(t)REPO_MAPPINGS\x7d ]] && declare -gA REPO_MAPPINGS",
   strL "REPO_MAPPINGS[acmd]=\"App-Android\"",
   strL "",
   strL "REPO_IDE_CONFIGS[acmd]=\"android-studio||\"",
   strL "",
   strL "REPO_CONFIGS[acmd]=\"./gradlew build|./gradlew test|./gradlew lint\"",
   strL "",
   strL "REPO_MODULES[acmd]=\"core feature\""]

/-- A document with all three declarations present (as in
test_validate_config.py, `test_already_declared_arrays`). -/
def declaredDoc : Document :=
  [strL "#!/usr/bin/env zsh",
   strL "[[ -z $\x7b(t)REPO_MAPPINGS\x7d ]] && declare -gA REPO_MAPPINGS",
   strL "[[ -z $\x7b(t)REPO_CONFIGS\x7d ]] && declare -gA REPO_CONFIGS",
   strL "[[ -z $\x7b(t)REPO_MODULES\x7d ]] && declare -gA REPO_MODULES",
   strL "[[ -z $\x7b(t)REPO_IDE_CONFIGS\x7d ]] && declare -gA REPO_IDE_CONFIGS",
   strL "",
   strL "REPO_CONFIGS[acmd]=\"./gradlew build|./gradlew test|./gradlew lint\"",
   strL "REPO_MODULES[acmd]=\"core feature\"",
   strL "REPO_IDE_CONFIGS[acmd]=\"android-studio||\""]

/-- A document with a duplicated scalar setting. -/
def dupScalarDoc : Document :=
  [strL "# header",
   strL "GIT_USERNAME=first",
   strL "",
   strL "GIT_USERNAME=second"]

/-- A document whose first line opens a keyed assignment without
closing its quote, so the raw-text match for it spans into the
comment line that follows and is closed by the quote found there. -/
def cmtSpanDoc : Document :=
  [strL "REPO_MAPPINGS[acmd]=\"Company-Android",
   strL "# note the stray \" quote"]

/-! ## Line classifiers for the template traversal

These Boolean classifiers name the branch conditions of the driver
loop for a template line, as used by the step lemmas below. -/

/-- No known scalar-setting prefix starts this line. -/
def noScalarPre (l : Line) : Bool := scalarVars.all fun v => !isPre (v ++ [eqc]) l

/-- A line on which the driver loop takes its default branch. -/
def plainLine (l : Line) : Bool :=
  noScalarPre l && !containsSub mapMarker l && !isPre ideHdr l && !isPre ciHdr l &&
    !isPre modHdr l

/-- A line carrying one of the four scalar settings and no marker. -/
def scalarLine (l : Line) : Bool :=
  (scalarVars.any fun v => isPre (v ++ [eqc]) l) && !containsSub mapMarker l

/-- A line triggering the alias-table branch. -/
def guardTrigger (l : Line) : Bool := noScalarPre l && containsSub mapMarker l

/-- A line triggering the IDE-section branch. -/
def ideTrigger (l : Line) : Bool :=
  noScalarPre l && !containsSub mapMarker l && isPre ideHdr l

/-- A line triggering the CI-section branch. -/
def ciTrigger (l : Line) : Bool :=
  noScalarPre l && !containsSub mapMarker l && !isPre ideHdr l && isPre ciHdr l

/-- A line triggering the modules-section branch. -/
def modTrigger (l : Line) : Bool :=
  noScalarPre l && !containsSub mapMarker l && !isPre ideHdr l && !isPre ciHdr l &&
    isPre modHdr l

/-! ## The template split along the traversal of the driver loop -/

/-- Template line 5, the `CONFIG_VERSION` setting. -/
def cvTL : Line := strL "CONFIG_VERSION=1"

/-- Template line 11, the `GIT_USERNAME` setting. -/
def guTL : Line := strL "GIT_USERNAME=\"$\x7bUSER\x7d\""

/-- Template line 16, the `BRANCH_PREFIX` setting. -/
def bpTL : Line := strL "BRANCH_PREFIX=\"$\x7bUSER\x7d\""

/-- Template line 20, the `BASE_DEV_PATH` setting. -/
def bdTL : Line := strL "BASE_DEV_PATH=\"$HOME/dev\""

/-- Template lines 0-4. -/
def tSeg0 : Document :=
  [strL "#!/usr/bin/env zsh",
   strL "# Worktree Tools Configuration",
   strL "# Copy to: ~/.config/worktree-tools/config.zsh",
   strL "",
   strL "# Config version (for migrations)"]

/-- Template lines 6-10. -/
def tSeg1 : Document :=
  [strL "",
   delimLine,
   strL "# REQUIRED: Update these for your setup",
   delimLine,
   strL ""]

/-- Template lines 12-15. -/
def tSeg2 : Document :=
  [strL "",
   strL "# Branch prefix (set to \"\" for no prefix)",
   strL "# \"john\" creates: john/my-feature",
   strL "# \"\" creates: my-feature"]

/-- Template lines 17-19. -/
def tSeg3 : Document :=
  [strL "",
   strL "# Where you ran setup_repos.sh (contains .repos/ and worktrees/)",
   strL "# Examples: \"$HOME/work/mobile\", \"$HOME/dev\", \"$HOME/projects\""]

/-- Template lines 21-26, ending at the guard line, which is always
emitted verbatim. -/
def tSeg4 : Document :=
  [strL "",
   delimLine,
   strL "# Repository shortcuts",
   delimLine,
   strL "",
   strL "[[ -z $\x7b(t)REPO_MAPPINGS\x7d ]] && declare -gA REPO_MAPPINGS"]

/-- Template lines 37-46: the IDE section header and its comment block
as copied by the loop (lines 27-36 are skipped). -/
def tSeg5 : Document :=
  [delimLine,
   strL "# Optional: IDE configuration (uncomment to enable 'ide' command)",
   delimLine,
   strL "",
   strL "# Opens the configured IDE when you run 'ide' from within a repo",
   strL "# Format: \"ide_type|workspace_path|fallback_command\"",
   strL "#",
   strL "# NOTE: You can use either shorthand OR full repo name as keys.",
   strL "#       Shorthand is recommended, but both work for backward compatibility.",
   strL ""]

/-- Template lines 51-61: the CI section header and its comment block
(lines 47-50 are skipped). -/
def tSeg6 : Document :=
  [strL "",
   delimLine,
   strL "# Optional: CI commands (uncomment to enable ci/test/lint shortcuts)",
   delimLine,
   strL "",
   strL "# Enables running 'ci', 'test', or 'lint' from within a repo",
   strL "# Format: \"build_cmd|test_cmd|lint_cmd\"",
   strL "#",
   strL "# NOTE: You can use either shorthand OR full repo name as keys.",
   strL "#       Shorthand is recommended, but both work for backward compatibility.",
   strL ""]

/-- Template lines 64-80: the CI skip loop stops at the blank line 64,
so the iOS and Web example comments survive, followed by the modules
section header and its comment block. -/
def tSeg7 : Document :=
  [strL "",
   strL "# iOS example:",
   strL "# REPO_CONFIGS[icmd]=\"bundle exec fastlane build|bundle exec fastlane unit_tests|swiftlint --strict\"",
   strL "",
   strL "# Web example:",
   strL "# REPO_CONFIGS[web]=\"npm run build|npm test|npm run lint\"",
   strL "",
   delimLine,
   strL "# Optional: Modular builds (uncomment to enable ci_modules/lint_modules)",
   delimLine,
   strL "",
   strL "# For monorepos with multiple modules - lets you select which ones to build/lint",
   strL "# Format: space-separated list of modules",
   strL "#",
   strL "# NOTE: You can use either shorthand OR full repo name as keys.",
   strL "#       Shorthand is recommended, but both work for backward compatibility.",
   strL ""]

/-- Template lines 83-97: the modules skip loop stops at the blank
line 83, so the iOS and Web module example comments survive, followed
by the auto-computed tail of the template. -/
def tSeg8 : Document :=
  [strL "",
   strL "# iOS modules:",
   strL "# REPO_MODULES[icmd]=\"CoreModule AuthModule ProfileModule\"",
   strL "",
   strL "# Web packages:",
   strL "# REPO_MODULES[web]=\"packages/ui packages/api packages/utils\"",
   strL "",
   delimLine,
   strL "# Auto-computed paths (don't change unless you have custom structure)",
   delimLine,
   strL "",
   strL "BARE_REPOS_PATH=\"$BASE_DEV_PATH/.repos\"",
   strL "WORKTREES_PATH=\"$BASE_DEV_PATH/worktrees\"",
   strL "WORKTREE_TEMPLATES_PATH=\"$BASE_DEV_PATH/worktree_templates\"",
   strL ""]

/-- The output of the driver loop on the template, as a function of
the extracted user values (proved in `normLoop_template`). -/
def mergedTemplate (uv : UserValues) : Document :=
  tSeg0 ++ scalarSubst uv.simple cvTL :: (tSeg1 ++ scalarSubst uv.simple guTL ::
    (tSeg2 ++ scalarSubst uv.simple bpTL :: (tSeg3 ++ scalarSubst uv.simple bdTL ::
      (tSeg4 ++ (mapsBlock uv ++ (tSeg5 ++ (bracketBlock ideName uv.ide_configs ++
        (tSeg6 ++ (bracketBlock cfgName uv.repo_configs ++
          (tSeg7 ++ (bracketBlock modsName uv.repo_modules ++ tSeg8)))))))))))

/-! ## Basic lemmas about the scanning primitives -/

theorem dropWhile_length_le {α : Type} (p : α → Bool) (xs : List α) :
    (xs.dropWhile p).length ≤ xs.length := by
  induction xs with
  | nil => simp
  | cons a xs ih =>
    rw [List.dropWhile_cons]
    split
    · exact Nat.le_succ_of_le ih
    · exact Nat.le_refl _

theorem exampleTail_length_le (xs : Document) : (exampleTail xs).length ≤ xs.length := by
  cases xs with
  | nil => simp [exampleTail]
  | cons a rest =>
    simp only [exampleTail]
    split
    · exact Nat.le_refl _
    · split
      · exact Nat.le_succ_of_le (Nat.le_refl _)
      · exact Nat.le_refl _

theorem head_of_isPre (c : Char) (s x : Line) (h : isPre (c :: s) x = true) :
    x.head? = some c := by
  cases x with
  | nil => simp [isPre] at h
  | cons d x =>
    simp only [isPre] at h
    split at h
    · next he => simp [he]
    · exact absurd h (by simp)

theorem isPre_false_of_heads (c d : Char) (s t x : Line) (hne : c ≠ d)
    (hx : isPre (d :: t) x = true) : isPre (c :: s) x = false := by
  cases hcase : isPre (c :: s) x
  · rfl
  · have h1 := head_of_isPre c s x hcase
    have h2 := head_of_isPre d t x hx
    rw [h1] at h2
    simp only [Option.some.injEq] at h2
    exact absurd h2 hne

/-- Fuel irrelevance: any fuel at least the number of remaining lines
computes the same result, so `normLoop` is the loop of the source. -/
theorem normLoopF_fuel (uv : UserValues) :
    ∀ f1 f2 : Nat, ∀ ls : Document, ls.length ≤ f1 → ls.length ≤ f2 →
      normLoopF uv f1 ls = normLoopF uv f2 ls := by
  intro f1
  induction f1 with
  | zero =>
    intro f2 ls h1 _
    cases ls with
    | nil => cases f2 <;> rfl
    | cons l ls => simp at h1
  | succ f1 ih =>
    intro f2 ls h1 h2
    cases ls with
    | nil => cases f2 <;> rfl
    | cons l ls =>
      cases f2 with
      | zero => simp at h2
      | succ f2 =>
        have hlen : ls.length ≤ f1 := Nat.le_of_succ_le_succ h1
        have hlen2 : ls.length ≤ f2 := Nat.le_of_succ_le_succ h2
        have e1 := ih f2 (ls.dropWhile fun x => !containsSub sectDelim x)
          (Nat.le_trans (dropWhile_length_le _ _) hlen)
          (Nat.le_trans (dropWhile_length_le _ _) hlen2)
        have e2 := ih f2 ((ls.dropWhile fun x => !isPre ideCmt x).dropWhile fun x => isPre ideCmt x)
          (Nat.le_trans (Nat.le_trans (dropWhile_length_le _ _) (dropWhile_length_le _ _)) hlen)
          (Nat.le_trans (Nat.le_trans (dropWhile_length_le _ _) (dropWhile_length_le _ _)) hlen2)
        have e3 := ih f2 (exampleTail ((ls.dropWhile fun x => !ciStop x).dropWhile ciEx))
          (Nat.le_trans (Nat.le_trans (exampleTail_length_le _)
            (Nat.le_trans (dropWhile_length_le _ _) (dropWhile_length_le _ _))) hlen)
          (Nat.le_trans (Nat.le_trans (exampleTail_length_le _)
            (Nat.le_trans (dropWhile_length_le _ _) (dropWhile_length_le _ _))) hlen2)
        have e4 := ih f2 (exampleTail ((ls.dropWhile fun x => !modStop x).dropWhile modEx))
          (Nat.le_trans (Nat.le_trans (exampleTail_length_le _)
            (Nat.le_trans (dropWhile_length_le _ _) (dropWhile_length_le _ _))) hlen)
          (Nat.le_trans (Nat.le_trans (exampleTail_length_le _)
            (Nat.le_trans (dropWhile_length_le _ _) (dropWhile_length_le _ _))) hlen2)
        have e5 := ih f2 ls hlen hlen2
        simp only [normLoopF]
        rw [e1, e2, e3, e4, e5]

/-- The one-step unfolding of the driver loop at the canonical fuel. -/
theorem normLoop_cons (uv : UserValues) (l : Line) (ls : Document) :
    normLoop uv (l :: ls) =
      (if containsSub mapMarker (scalarSubst uv.simple l) then
        scalarSubst uv.simple l ::
          (mapsBlock uv ++ normLoop uv (ls.dropWhile fun x => !containsSub sectDelim x))
      else if isPre ideHdr (scalarSubst uv.simple l) then
        scalarSubst uv.simple l :: (ls.takeWhile (fun x => !isPre ideCmt x) ++
          (bracketBlock ideName uv.ide_configs ++
            normLoop uv ((ls.dropWhile fun x => !isPre ideCmt x).dropWhile fun x => isPre ideCmt x)))
      else if isPre ciHdr (scalarSubst uv.simple l) then
        scalarSubst uv.simple l :: (ls.takeWhile (fun x => !ciStop x) ++
          (bracketBlock cfgName uv.repo_configs ++
            normLoop uv (exampleTail ((ls.dropWhile fun x => !ciStop x).dropWhile ciEx))))
      else if isPre modHdr (scalarSubst uv.simple l) then
        scalarSubst uv.simple l :: (ls.takeWhile (fun x => !modStop x) ++
          (bracketBlock modsName uv.repo_modules ++
            normLoop uv (exampleTail ((ls.dropWhile fun x => !modStop x).dropWhile modEx))))
      else scalarSubst uv.simple l :: normLoop uv ls) := by
  show normLoopF uv (ls.length + 1) (l :: ls) = _
  simp only [normLoopF, normLoop]
  rw [normLoopF_fuel uv ls.length (ls.dropWhile fun x => !containsSub sectDelim x).length _
        (dropWhile_length_le _ _) (Nat.le_refl _),
      normLoopF_fuel uv ls.length
        ((ls.dropWhile fun x => !isPre ideCmt x).dropWhile fun x => isPre ideCmt x).length _
        (Nat.le_trans (dropWhile_length_le _ _) (dropWhile_length_le _ _)) (Nat.le_refl _),
      normLoopF_fuel uv ls.length
        (exampleTail ((ls.dropWhile fun x => !ciStop x).dropWhile ciEx)).length _
        (Nat.le_trans (exampleTail_length_le _)
          (Nat.le_trans (dropWhile_length_le _ _) (dropWhile_length_le _ _))) (Nat.le_refl _),
      normLoopF_fuel uv ls.length
        (exampleTail ((ls.dropWhile fun x => !modStop x).dropWhile modEx)).length _
        (Nat.le_trans (exampleTail_length_le _)
          (Nat.le_trans (dropWhile_length_le _ _) (dropWhile_length_le _ _))) (Nat.le_refl _)]

/-! ## The section-spacing pass and the validator frame lemmas -/

theorem fixSectionSpacing_eq (doc : Document) : fixSectionSpacing doc = (doc, false) := by
  induction doc with
  | nil => rfl
  | cons l ls ih => simp [fixSectionSpacing, ih]

theorem fixDeclLoop_sublist (needs : ACat → Bool) (decl : ACat → Bool) (ls : Document) :
    List.Sublist ls (fixDeclLoop needs decl ls).1 := by
  induction ls generalizing decl with
  | nil => simp [fixDeclLoop]
  | cons l ls ih =>
    simp only [fixDeclLoop]
    refine List.Sublist.trans ?_ (List.sublist_append_right _ _)
    exact List.Sublist.cons₂ l (ih _)

theorem fixDeclLoop_all_declared (needs decl : ACat → Bool) (h : ∀ c, decl c = true)
    (ls : Document) : fixDeclLoop needs decl ls = (ls, []) := by
  induction ls with
  | nil => rfl
  | cons l ls ih =>
    have hstep : declStep needs decl l = ([], [], decl) := by
      simp [declStep, catFire, h]
    simp [fixDeclLoop, hstep, ih]

/-- C7: for every document, the validator's section-spacing pass
returns the document unchanged with a false flag: it never mutates the
document and never contributes an issue. -/
theorem sectionSpacing_noop (doc : Document) : fixSectionSpacing doc = (doc, false) :=
  fixSectionSpacing_eq doc

/-- C9: the document returned by `validateAndFix` contains every line
of the input verbatim and in the same relative order; the validator
only inserts lines, never deleting or modifying an existing one. -/
theorem validator_only_inserts (doc : Document) : List.Sublist doc (validateAndFix doc).1 := by
  simp only [validateAndFix, fixMissingDeclarations, fixSectionSpacing_eq]
  exact fixDeclLoop_sublist _ _ _

/-- C8: on a document in which all three declaration-guard lines are
already present, `validateAndFix` reports no issues and returns the
document unchanged. -/
theorem validator_noop_on_declared (doc : Document)
    (h : ∀ c, declaredOf doc c = true) : validateAndFix doc = (doc, false, []) := by
  have h1 : fixDeclLoop (needsOf doc) (declaredOf doc) doc = (doc, []) :=
    fixDeclLoop_all_declared _ _ h doc
  simp [validateAndFix, fixMissingDeclarations, h1, fixSectionSpacing_eq]

/-- Witness for C8 at a concrete fully-declared document. -/
theorem validator_noop_on_declared_witness :
    validateAndFix declaredDoc = (declaredDoc, false, []) :=
  validator_noop_on_declared declaredDoc (by decide)

/-! ## Extraction lemmas -/

/-- C6: when a known scalar setting appears on several lines, the
extraction scan returns the value of the first matching line in
document order. -/
theorem scalar_first_match_wins (var l1 l2 : Line) (pre mid post : Document)
    (_hvar : var ∈ scalarVars)
    (hpre : ∀ l ∈ pre, isPre (var ++ [eqc]) l = false)
    (h1 : isPre (var ++ [eqc]) l1 = true) (_h2 : isPre (var ++ [eqc]) l2 = true) :
    findScalar var (pre ++ l1 :: (mid ++ l2 :: post)) = some (l1.drop (var.length + 1)) := by
  unfold findScalar
  have hf : (pre ++ l1 :: (mid ++ l2 :: post)).find? (fun l => isPre (var ++ [eqc]) l)
      = some l1 := by
    induction pre with
    | nil => simp [List.find?_cons_of_pos, h1]
    | cons a pre ih =>
      rw [List.cons_append, List.find?_cons_of_neg]
      · exact ih fun l hl => hpre l (List.mem_cons_of_mem a hl)
      · simp [hpre a (List.mem_cons_self a pre)]
  rw [hf]
  rfl

/-- Witness for C6: on a document with a duplicated `GIT_USERNAME`
line, the first value wins. -/
theorem scalar_first_match_wins_witness :
    findScalar gitUserName dupScalarDoc = some (strL "first") := by
  have h := scalar_first_match_wins gitUserName (strL "GIT_USERNAME=first")
    (strL "GIT_USERNAME=second") [strL "# header"] [strL ""] []
    (by decide) (by decide) (by decide) (by decide)
  simpa using h

theorem filterMap_filter_none {α β : Type} (f : α → Option β) (keep : α → Bool)
    (l : List α) (h : ∀ x ∈ l, keep x = false → f x = none) :
    (l.filter keep).filterMap f = l.filterMap f := by
  induction l with
  | nil => rfl
  | cons a l ih =>
    have ih' := ih fun x hx => h x (List.mem_cons_of_mem a hx)
    rw [List.filter_cons]
    cases hk : keep a with
    | true => simp [List.filterMap_cons, ih']
    | false =>
      have ha : f a = none := h a (List.mem_cons_self a l) hk
      simp [List.filterMap_cons, ha, ih']

theorem find?_filter_same {α : Type} (p keep : α → Bool) (l : List α)
    (h : ∀ x ∈ l, keep x = false → p x = false) :
    (l.filter keep).find? p = l.find? p := by
  induction l with
  | nil => rfl
  | cons a l ih =>
    have ih' := ih fun x hx => h x (List.mem_cons_of_mem a hx)
    rw [List.filter_cons]
    cases hk : keep a with
    | true =>
      cases hp : p a with
      | true => simp [List.find?_cons_of_pos, hp]
      | false => simp [List.find?_cons_of_neg, hp, ih']
    | false =>
      have ha : p a = false := h a (List.mem_cons_self a l) hk
      simp [List.find?_cons_of_neg, ha, ih']

/-! ## Alias resolution -/

theorem fullToShort_eq_none (maps : List (Line × Line)) (k : Line)
    (h : k ∉ maps.map Prod.snd) : fullToShort maps k = none := by
  unfold fullToShort
  rw [List.find?_eq_none.mpr]
  · rfl
  · intro p hp
    have hp' : p ∈ maps := List.mem_reverse.mp hp
    simp only [decide_eq_true_eq]
    intro hpk
    exact h (hpk ▸ List.mem_map_of_mem Prod.snd hp')

theorem resolveKey_idem (maps : List (Line × Line)) (k : Line)
    (h : ∀ p ∈ maps, p.1 ∉ maps.map Prod.snd) :
    resolveKey maps (resolveKey maps k) = resolveKey maps k := by
  unfold resolveKey
  cases hft : fullToShort maps k with
  | none => simp [hft]
  | some s =>
    simp only [hft, Option.getD_some]
    have hmem : ∃ p, p ∈ maps ∧ p.1 = s := by
      unfold fullToShort at hft
      cases hfind : maps.reverse.find? fun p => decide (p.2 = k) with
      | none => rw [hfind] at hft; simp at hft
      | some p =>
        rw [hfind] at hft
        simp only [Option.map_some', Option.some.injEq] at hft
        exact ⟨p, List.mem_reverse.mp (List.mem_of_find?_eq_some hfind), hft⟩
    obtain ⟨p, hpmem, hps⟩ := hmem
    rw [fullToShort_eq_none maps s (hps ▸ h p hpmem)]
    rfl

theorem resolveEntries_idem (maps entries : List (Line × Line))
    (h : ∀ p ∈ maps, p.1 ∉ maps.map Prod.snd) :
    resolveEntries maps (resolveEntries maps entries) = resolveEntries maps entries := by
  unfold resolveEntries
  rw [List.map_map]
  apply List.map_congr_left
  intro p _
  simp only [Function.comp_apply]
  rw [resolveKey_idem maps p.1 h]

/-- C3 counterexample: on `chainUser`, whose shorthand `b` is also the
canonical name of another alias entry, applying alias resolution a
second time changes the already-resolved `REPO_CONFIGS` entries. -/
theorem alias_resolution_not_idempotent :
    ¬ (resolveEntries (extractUserValues chainUser).mappings
        (extractUserValues chainUser).repo_configs
      = (extractUserValues chainUser).repo_configs) := by
  decide

/-- C3 (amended): alias resolution is idempotent on every document in
which no alias shorthand is also the canonical name of some alias
entry; the second resolution then leaves each of the three keyed-entry
lists unchanged. -/
theorem alias_resolution_idempotent (doc : Document)
    (h : ∀ p ∈ (extractUserValues doc).mappings,
        p.1 ∉ ((extractUserValues doc).mappings).map Prod.snd) :
    resolveEntries (extractUserValues doc).mappings (extractUserValues doc).ide_configs
        = (extractUserValues doc).ide_configs ∧
    resolveEntries (extractUserValues doc).mappings (extractUserValues doc).repo_configs
        = (extractUserValues doc).repo_configs ∧
    resolveEntries (extractUserValues doc).mappings (extractUserValues doc).repo_modules
        = (extractUserValues doc).repo_modules :=
  ⟨resolveEntries_idem _ (rawEntries ideName doc) h,
   resolveEntries_idem _ (rawEntries cfgName doc) h,
   resolveEntries_idem _ (rawEntries modsName doc) h⟩

/-- Witness for the amended C3 at a concrete document whose shorthands
are distinct from all canonical names. -/
theorem alias_resolution_idempotent_witness :
    resolveEntries (extractUserValues demoUser).mappings (extractUserValues demoUser).ide_configs
        = (extractUserValues demoUser).ide_configs ∧
    resolveEntries (extractUserValues demoUser).mappings (extractUserValues demoUser).repo_configs
        = (extractUserValues demoUser).repo_configs ∧
    resolveEntries (extractUserValues demoUser).mappings (extractUserValues demoUser).repo_modules
        = (extractUserValues demoUser).repo_modules :=
  alias_resolution_idempotent demoUser (by decide)

/-! ## The alias-table section of the merge -/

/-- C5: on a template line containing the alias-table guard marker the
merger emits that line, then a blank line followed by one line per
alias entry in extraction order when there is at least one entry, and
nothing at all (not even the blank line) when there are none; it then
skips all template lines up to, but not including, the next line
containing the section-delimiter token. -/
theorem merge_alias_section (uv : UserValues) (l l2 : Line) (r1 r2 : Document)
    (hm : containsSub mapMarker (scalarSubst uv.simple l) = true)
    (h1 : ∀ x ∈ r1, containsSub sectDelim x = false)
    (h2 : containsSub sectDelim l2 = true) :
    normLoop uv (l :: (r1 ++ l2 :: r2)) =
      scalarSubst uv.simple l ::
        ((if uv.mappings = [] then []
          else emptyLine :: uv.mappings.map (mkAssign mapsName)) ++ normLoop uv (l2 :: r2)) := by
  rw [normLoop_cons, if_pos hm]
  have hdrop : ((r1 ++ l2 :: r2).dropWhile fun x => !containsSub sectDelim x) = l2 :: r2 := by
    induction r1 with
    | nil =>
      rw [List.nil_append, List.dropWhile_cons, if_neg (by simp [h2])]
    | cons a r1 ih =>
      rw [List.cons_append, List.dropWhile_cons,
        if_pos (by simp [h1 a (List.mem_cons_self a r1)])]
      exact ih fun x hx => h1 x (List.mem_cons_of_mem a hx)
  rw [hdrop]
  by_cases hE : uv.mappings = []
  · simp [mapsBlock, hE]
  · simp [mapsBlock, hE]

/-- Witness for C5 at the template's guard line with the extracted
values of a concrete user document. -/
theorem merge_alias_section_witness :
    normLoop (extractUserValues demoUser)
        (strL "[[ -z $\x7b(t)REPO_MAPPINGS\x7d ]] && declare -gA REPO_MAPPINGS" ::
          ([strL "", strL "# Add your repos here:"] ++
            delimLine ::
              [strL "BARE_REPOS_PATH=\"$BASE_DEV_PATH/.repos\""])) =
      scalarSubst (extractUserValues demoUser).simple
          (strL "[[ -z $\x7b(t)REPO_MAPPINGS\x7d ]] && declare -gA REPO_MAPPINGS") ::
        ((if (extractUserValues demoUser).mappings = [] then []
          else emptyLine :: (extractUserValues demoUser).mappings.map (mkAssign mapsName)) ++
          normLoop (extractUserValues demoUser)
            (delimLine ::
              [strL "BARE_REPOS_PATH=\"$BASE_DEV_PATH/.repos\""])) :=
  merge_alias_section (extractUserValues demoUser) _ _ _ _ (by decide) (by decide) (by decide)

/-! ## Missing-declaration pass: step lemmas -/

theorem isPre_of_isPre_isPre (a b x : Line) (ha : isPre a x = true) (hb : isPre b x = true)
    (hl : a.length ≤ b.length) : isPre a b = true := by
  induction a generalizing b x with
  | nil => rfl
  | cons c as ih =>
    cases b with
    | nil => simp at hl
    | cons d bs =>
      cases x with
      | nil => simp [isPre] at ha
      | cons e xs =>
        simp only [isPre] at ha hb ⊢
        split at ha
        · next hce =>
          split at hb
          · next hde =>
            rw [hce, hde, if_pos rfl]
            exact ih bs xs ha hb (Nat.le_of_succ_le_succ (by simpa using hl))
          · exact absurd hb (by simp)
        · exact absurd ha (by simp)

theorem isAssign_unique (c c' : ACat) (l : Line) (h : isAssign c l = true)
    (h' : isAssign c' l = true) : c = c' := by
  unfold isAssign at h h'
  cases c <;> cases c' <;>
    first
      | rfl
      | exact absurd (isPre_of_isPre_isPre _ _ l h h' (by decide)) (by decide)
      | exact absurd (isPre_of_isPre_isPre _ _ l h' h (by decide)) (by decide)

theorem isAssign_guard : ∀ c c' : ACat, isAssign c (guardLine c') = false := by
  decide

theorem isAssign_empty : ∀ c : ACat, isAssign c emptyLine = false := by
  decide

theorem issueLine_inj : ∀ c c' : ACat, issueLine c = issueLine c' ↔ c = c' := by
  decide

/-- The declared-flags after one step: a category is declared exactly
when it was declared before or its insertion fired on this line. -/
theorem declStep_decl (needs decl : ACat → Bool) (l : Line) (c : ACat) :
    (declStep needs decl l).2.2 c = (decl c || catFire needs decl l c) := by
  cases c <;>
    (simp only [declStep]
     split <;> split <;> split <;> simp_all [setDecl, catFire])

/-- The issues recorded in one step contain the issue line of `c`
exactly when `c`'s insertion fired. -/
theorem declStep_issue_count (needs decl : ACat → Bool) (l : Line) (c : ACat) :
    ((declStep needs decl l).2.1.count (issueLine c)) =
      (if catFire needs decl l c = true then 1 else 0) := by
  cases c <;>
    (simp only [declStep]
     split <;> split <;> split <;>
       simp_all [setDecl, catFire, List.count_cons, List.count_nil, List.count_append,
         beq_iff_eq, issueLine_inj]) <;>
    (split <;> simp_all)

/-- Every line inserted by one step is a guard line or a blank line. -/
theorem declStep_ins_shape (needs decl : ACat → Bool) (l : Line) (x : Line)
    (hx : x ∈ (declStep needs decl l).1) : (∃ c, x = guardLine c) ∨ x = emptyLine := by
  simp only [declStep] at hx
  split at hx <;> split at hx <;> split at hx <;>
    simp only [List.mem_append, List.mem_cons, List.not_mem_nil, or_false, false_or] at hx <;>
    aesop

/-- If no insertion fires on a line the step is inert. -/
theorem declStep_no_fire (needs decl : ACat → Bool) (l : Line)
    (h : ∀ c, catFire needs decl l c = false) : declStep needs decl l = ([], [], decl) := by
  simp [declStep, h]

/-- On the first assignment line of a needed, undeclared category the
step inserts exactly its guard line and a blank line and records
exactly its issue. -/
theorem declStep_fire (needs decl : ACat → Bool) (l : Line) (c : ACat)
    (hfire : needs c = true) (hdecl : decl c = false) (hassign : isAssign c l = true) :
    declStep needs decl l = ([guardLine c, emptyLine], [issueLine c], setDecl decl c) := by
  have hothers : ∀ c', c' ≠ c → isAssign c' l = false := by
    intro c' hne
    cases hc' : isAssign c' l
    · rfl
    · exact absurd (isAssign_unique c' c l hc' hassign) hne
  cases c <;>
    simp_all [declStep, catFire, setDecl, hothers .ide, hothers .cfg, hothers .mods]

/-- If `c`'s insertion fired on this line, its guard line is among the
inserted lines. -/
theorem declStep_guard_mem (needs decl : ACat → Bool) (l : Line) (c : ACat)
    (h : catFire needs decl l c = true) : guardLine c ∈ (declStep needs decl l).1 := by
  have h' : (needs c = true ∧ decl c = false) ∧ isAssign c l = true := by
    simpa [catFire] using h
  rw [declStep_fire needs decl l c h'.1.1 h'.1.2 h'.2]
  simp

theorem declSub_guard : ∀ c : ACat, containsSub (declSub c) (guardLine c) = true := by
  decide

/-! ## Missing-declaration pass: loop lemmas -/

/-- The guard and blank line are inserted immediately before the first
assignment line of a needed, undeclared category. -/
theorem fixDeclLoop_inserts_before_first (needs : ACat → Bool) (c : ACat) (pre : Document) :
    ∀ decl : ACat → Bool, ∀ (a : Line) (post : Document),
      needs c = true → decl c = false →
      (∀ l ∈ pre, isAssign c l = false) → isAssign c a = true →
      ∃ A B, (fixDeclLoop needs decl (pre ++ a :: post)).1
          = A ++ guardLine c :: emptyLine :: a :: B
        ∧ ∀ l ∈ A, isAssign c l = false := by
  induction pre with
  | nil =>
    intro decl a post hneeds hdecl _ ha
    refine ⟨[], (fixDeclLoop needs (setDecl decl c) post).1, ?_, by simp⟩
    simp only [List.nil_append, fixDeclLoop]
    rw [declStep_fire needs decl a c hneeds hdecl ha]
    simp
  | cons p pre ih =>
    intro decl a post hneeds hdecl hpre ha
    have hp : isAssign c p = false := hpre p (List.mem_cons_self p pre)
    have hdecl' : (declStep needs decl p).2.2 c = false := by
      rw [declStep_decl]
      simp [hdecl, catFire, hp]
    obtain ⟨A, B, hout, hA⟩ := ih (declStep needs decl p).2.2 a post hneeds hdecl'
      (fun l hl => hpre l (List.mem_cons_of_mem p hl)) ha
    refine ⟨(declStep needs decl p).1 ++ p :: A, B, ?_, ?_⟩
    · simp only [List.cons_append, fixDeclLoop, List.append_eq]
      rw [hout]
      simp
    · intro l hl
      rcases List.mem_append.mp hl with hl | hl
      · rcases declStep_ins_shape needs decl p l hl with ⟨c', rfl⟩ | rfl
        · exact isAssign_guard c c'
        · exact isAssign_empty c
      · rcases List.mem_cons.mp hl with rfl | hl
        · exact hp
        · exact hA l hl

/-- The issue string of a category is recorded exactly once when the
category is needed, undeclared and assigned somewhere, and never
otherwise. -/
theorem fixDeclLoop_issue_count (needs : ACat → Bool) (c : ACat) (ls : Document) :
    ∀ decl : ACat → Bool,
      (fixDeclLoop needs decl ls).2.count (issueLine c)
        = if needs c = true ∧ decl c = false ∧ ls.any (isAssign c) = true then 1 else 0 := by
  induction ls with
  | nil => intro decl; simp [fixDeclLoop]
  | cons l ls ih =>
    intro decl
    simp only [fixDeclLoop, List.count_append, declStep_issue_count, ih, List.any_cons]
    rw [declStep_decl]
    by_cases hn : needs c = true
    · by_cases hd : decl c = false
      · by_cases ha : isAssign c l = true
        · have hfire : catFire needs decl l c = true := by simp [catFire, hn, hd, ha]
          simp [hfire, hn, hd, ha]
        · have hfire : catFire needs decl l c = false := by
            simp only [catFire, ha, Bool.and_false]
          simp [hfire, hn, hd, ha]
      · have hd' : decl c = true := by simpa using hd
        have hfire : catFire needs decl l c = false := by
          simp [catFire, hd']
        simp [hfire, hd']
    · have hn' : needs c = false := by simpa using hn
      have hfire : catFire needs decl l c = false := by
        simp [catFire, hn']
      simp [hfire, hn']

/-- After the pass, a needed-but-undeclared category's guard line is
present in the output. -/
theorem fixDeclLoop_guard_mem (needs : ACat → Bool) (c : ACat) (ls : Document) :
    ∀ decl : ACat → Bool, needs c = true → decl c = false → ls.any (isAssign c) = true →
      guardLine c ∈ (fixDeclLoop needs decl ls).1 := by
  induction ls with
  | nil =>
    intro decl _ _ h
    simp at h
  | cons l ls ih =>
    intro decl hn hd hany
    simp only [fixDeclLoop, List.mem_append, List.mem_cons]
    by_cases ha : isAssign c l = true
    · have hfire : catFire needs decl l c = true := by simp [catFire, hn, hd, ha]
      exact Or.inl (declStep_guard_mem needs decl l c hfire)
    · have ha' : isAssign c l = false := by simpa using ha
      have hany' : ls.any (isAssign c) = true := by
        simp only [List.any_cons, ha', Bool.false_or] at hany
        exact hany
      have hd' : (declStep needs decl l).2.2 c = false := by
        rw [declStep_decl]
        simp [hd, catFire, ha']
      exact Or.inr (Or.inr (ih (declStep needs decl l).2.2 hn hd' hany'))

/-- Every output line of the pass is an input line, an inserted guard
line, or an inserted blank line. -/
theorem fixDeclLoop_out_shape (needs : ACat → Bool) (ls : Document) :
    ∀ (decl : ACat → Bool) (x : Line), x ∈ (fixDeclLoop needs decl ls).1 →
      x ∈ ls ∨ (∃ c, x = guardLine c) ∨ x = emptyLine := by
  induction ls with
  | nil =>
    intro decl x hx
    simp [fixDeclLoop] at hx
  | cons l ls ih =>
    intro decl x hx
    simp only [fixDeclLoop, List.mem_append, List.mem_cons] at hx
    rcases hx with hx | hx | hx
    · exact Or.inr (declStep_ins_shape needs decl l x hx)
    · exact Or.inl (by simp [hx])
    · rcases ih (declStep needs decl l).2.2 x hx with h | h
      · exact Or.inl (List.mem_cons_of_mem l h)
      · exact Or.inr h

/-- With every needed category declared, the pass is inert. -/
theorem fixDeclLoop_no_fire (needs decl : ACat → Bool)
    (h : ∀ c, needs c = true → decl c = true) (ls : Document) :
    fixDeclLoop needs decl ls = (ls, []) := by
  induction ls with
  | nil => rfl
  | cons l ls ih =>
    have hstep : declStep needs decl l = ([], [], decl) := by
      apply declStep_no_fire
      intro c
      cases hn : needs c with
      | false => simp [catFire, hn]
      | true => simp [catFire, h c hn]
    simp [fixDeclLoop, hstep, ih]

theorem validateAndFix_out (doc : Document) :
    (validateAndFix doc).1 = (fixDeclLoop (needsOf doc) (declaredOf doc) doc).1 := by
  simp [validateAndFix, fixMissingDeclarations, fixSectionSpacing_eq]

/-- Running the validator on its own output finds nothing left to fix. -/
theorem validateAndFix_second (doc : Document) :
    validateAndFix ((validateAndFix doc).1) = ((validateAndFix doc).1, false, []) := by
  have hkey : ∀ c, needsOf ((validateAndFix doc).1) c = true →
      declaredOf ((validateAndFix doc).1) c = true := by
    intro c hneed
    obtain ⟨x, hxmem, hxass⟩ : ∃ x ∈ (validateAndFix doc).1, isAssign c x = true := by
      simpa [needsOf, List.any_eq_true] using hneed
    have hx' : x ∈ doc := by
      rw [validateAndFix_out] at hxmem
      rcases fixDeclLoop_out_shape (needsOf doc) doc (declaredOf doc) x hxmem with
        h | ⟨c', rfl⟩ | rfl
      · exact h
      · rw [isAssign_guard c c'] at hxass
        cases hxass
      · rw [isAssign_empty c] at hxass
        cases hxass
    have hneeddoc : needsOf doc c = true := by
      simp only [needsOf, List.any_eq_true]
      exact ⟨x, hx', hxass⟩
    by_cases hdecl : declaredOf doc c = true
    · obtain ⟨y, hymem, hy⟩ : ∃ y ∈ doc, containsSub (declSub c) y = true := by
        simpa [declaredOf, List.any_eq_true] using hdecl
      have hymem' : y ∈ (validateAndFix doc).1 := by
        rw [validateAndFix_out]
        exact (fixDeclLoop_sublist _ _ _).subset hymem
      simp only [declaredOf, List.any_eq_true]
      exact ⟨y, hymem', hy⟩
    · have hdecl' : declaredOf doc c = false := by simpa using hdecl
      have hg : guardLine c ∈ (validateAndFix doc).1 := by
        rw [validateAndFix_out]
        exact fixDeclLoop_guard_mem (needsOf doc) c doc (declaredOf doc) hneeddoc hdecl' hneeddoc
      simp only [declaredOf, List.any_eq_true]
      exact ⟨guardLine c, hg, declSub_guard c⟩
  have hloop := fixDeclLoop_no_fire (needsOf ((validateAndFix doc).1))
    (declaredOf ((validateAndFix doc).1)) hkey ((validateAndFix doc).1)
  rw [validateAndFix_out] at hloop
  rw [validateAndFix_out]
  simp [validateAndFix, fixMissingDeclarations, hloop, fixSectionSpacing_eq]

/-- C2: on a document in which category `c` has an assignment line but
no declaration-guard line, `validateAndFix` inserts the guard line
followed by a blank line immediately before the first assignment line
of `c`, records exactly one issue for `c`, reports `hadIssues = true`,
and a second run on the fixed output reports no issues. -/
theorem missing_declaration_fixed (c : ACat) (pre post : Document) (a : Line)
    (hpre : ∀ l ∈ pre, isAssign c l = false)
    (ha : isAssign c a = true)
    (hnodecl : declaredOf (pre ++ a :: post) c = false) :
    (∃ A B, (validateAndFix (pre ++ a :: post)).1 = A ++ guardLine c :: emptyLine :: a :: B
        ∧ ∀ l ∈ A, isAssign c l = false) ∧
    (validateAndFix (pre ++ a :: post)).2.2.count (issueLine c) = 1 ∧
    (validateAndFix (pre ++ a :: post)).2.1 = true ∧
    validateAndFix ((validateAndFix (pre ++ a :: post)).1)
      = ((validateAndFix (pre ++ a :: post)).1, false, []) := by
  have hneeds : needsOf (pre ++ a :: post) c = true := by
    simp only [needsOf, List.any_eq_true]
    exact ⟨a, by simp, ha⟩
  have hany : (pre ++ a :: post).any (isAssign c) = true := hneeds
  have hcount : (validateAndFix (pre ++ a :: post)).2.2.count (issueLine c) = 1 := by
    have h := fixDeclLoop_issue_count (needsOf (pre ++ a :: post)) c (pre ++ a :: post)
      (declaredOf (pre ++ a :: post))
    rw [if_pos ⟨hneeds, hnodecl, hany⟩] at h
    simpa [validateAndFix, fixMissingDeclarations, fixSectionSpacing_eq] using h
  refine ⟨?_, hcount, ?_, validateAndFix_second _⟩
  · rw [validateAndFix_out]
    exact fixDeclLoop_inserts_before_first (needsOf (pre ++ a :: post)) c pre
      (declaredOf (pre ++ a :: post)) a post hneeds hnodecl hpre ha
  · have hne : (validateAndFix (pre ++ a :: post)).2.2 ≠ [] := by
      intro hnil
      rw [hnil] at hcount
      simp at hcount
    simp only [validateAndFix, fixMissingDeclarations, fixSectionSpacing_eq] at hne ⊢
    simp only [Bool.or_false]
    simpa using hne

/-- Witness for C2: the `REPO_CONFIGS` category of `undeclaredDoc`. -/
theorem missing_declaration_fixed_witness :
    (validateAndFix undeclaredDoc).2.2.count (issueLine .cfg) = 1 ∧
    (validateAndFix undeclaredDoc).2.1 = true ∧
    validateAndFix ((validateAndFix undeclaredDoc).1)
      = ((validateAndFix undeclaredDoc).1, false, []) := by
  have h := missing_declaration_fixed .cfg
    [strL "#!/usr/bin/env zsh",
     strL "[[ -z $\x7b(t)REPO_MAPPINGS\x7d ]] && declare -gA REPO_MAPPINGS",
     strL "REPO_MAPPINGS[acmd]=\"App-Android\"",
     strL "",
     strL "REPO_IDE_CONFIGS[acmd]=\"android-studio||\"",
     strL ""]
    [strL "", strL "REPO_MODULES[acmd]=\"core feature\""]
    (strL "REPO_CONFIGS[acmd]=\"./gradlew build|./gradlew test|./gradlew lint\"")
    (by decide) (by decide) (by decide)
  exact ⟨h.2.1, h.2.2.1, h.2.2.2⟩

/-! ## Prefix and substring lemmas for the merge traversal -/

theorem not_pre_of_take (a b x : Line) (h : isPre (a.take b.length) b = false) :
    isPre a (b ++ x) = false := by
  induction b generalizing a with
  | nil => simp [isPre] at h
  | cons d bs ih =>
    cases a with
    | nil => simp [isPre] at h
    | cons c as =>
      simp only [List.length_cons, List.take_succ_cons, isPre, List.cons_append] at h ⊢
      split at h
      · next hcd => rw [if_pos hcd]; exact ih as h
      · next hcd => rw [if_neg hcd]

theorem isPre_append_self (a x : Line) : isPre a (a ++ x) = true := by
  induction a with
  | nil => rfl
  | cons c as ih => simp [isPre, ih]

theorem dropPre_eq_none (p l : Line) (h : isPre p l = false) : dropPre p l = none := by
  induction p generalizing l with
  | nil => simp [isPre] at h
  | cons c ps ih =>
    cases l with
    | nil => rfl
    | cons d ls =>
      simp only [isPre, dropPre] at h ⊢
      split at h
      · next hcd => rw [if_pos hcd]; exact ih ls h
      · next hcd => rw [if_neg hcd]

theorem dropPre_append_self (p x : Line) : dropPre p (p ++ x) = some x := by
  induction p with
  | nil => rfl
  | cons c ps ih => simp [dropPre, ih]

theorem matchKeyedAt_none_of_not_pre (name l : Line)
    (h : isPre (name ++ [lbrack]) l = false) : matchKeyedAt name l = none := by
  unfold matchKeyedAt
  rw [dropPre_eq_none _ _ h]

theorem parseKeyed_none_of_not_pre (name l : Line)
    (h : isPre (name ++ [lbrack]) l = false) : parseKeyed name l = none := by
  unfold parseKeyed
  rw [matchKeyedAt_none_of_not_pre name l h]
  rfl

theorem takeWhile_all_stop (q : Char → Bool) (xs : Line) (y : Char) (ys : Line)
    (hx : ∀ c ∈ xs, q c = true) (hy : q y = false) :
    (xs ++ y :: ys).takeWhile q = xs ∧ (xs ++ y :: ys).dropWhile q = y :: ys := by
  induction xs with
  | nil => simp [List.takeWhile_cons, List.dropWhile_cons, hy]
  | cons c cs ih =>
    have hc : q c = true := hx c (List.mem_cons_self c cs)
    have ih' := ih fun d hd => hx d (List.mem_cons_of_mem c hd)
    simp [List.takeWhile_cons, List.dropWhile_cons, hc, ih'.1, ih'.2]

/-- A well-formed assignment text matches in place, consuming exactly
through its closing quote. -/
theorem matchKeyedAt_mk (name k v r : Line) (hk1 : k ≠ [])
    (hk2 : ∀ c ∈ k, c ≠ ']') (hv : ∀ c ∈ v, c ≠ '"') :
    matchKeyedAt name (name ++ lbrack :: (k ++ ']' :: eqc :: '"' :: (v ++ '"' :: r)))
      = some ((k, v), r) := by
  have hsplit : name ++ lbrack :: (k ++ ']' :: eqc :: '"' :: (v ++ '"' :: r))
      = (name ++ [lbrack]) ++ (k ++ ']' :: '=' :: '"' :: (v ++ '"' :: r)) := by
    simp [eqc]
  have h1 := takeWhile_all_stop (fun c => !(c = ']')) k ']'
    ('=' :: '"' :: (v ++ '"' :: r)) (fun c hc => by simp [hk2 c hc]) (by simp)
  have h2 := takeWhile_all_stop (fun c => !(c = '"')) v '"' r
    (fun c hc => by simp [hv c hc]) (by simp)
  have hk1' : k.isEmpty = false := by simpa [List.isEmpty_iff] using hk1
  rw [hsplit]
  unfold matchKeyedAt
  rw [dropPre_append_self]
  simp only [h1.1, h1.2, h2.1, h2.2, hk1', Bool.false_eq_true, if_false]

theorem parse_mkAssign (name : Line) (p : Line × Line) (hk1 : p.1 ≠ [])
    (hk2 : ∀ c ∈ p.1, c ≠ ']') (hv : ∀ c ∈ p.2, c ≠ '"') :
    parseKeyed name (mkAssign name p) = some p := by
  unfold parseKeyed mkAssign
  rw [matchKeyedAt_mk name p.1 p.2 [] hk1 hk2 hv]
  rfl

theorem containsSub_append_head (c : Char) (s' pre rest : Line)
    (hpre : ∀ a ∈ pre, a ≠ c) :
    containsSub (c :: s') (pre ++ rest) = containsSub (c :: s') rest := by
  induction pre with
  | nil => rfl
  | cons a t ih =>
    have hne : isPre (c :: s') (a :: (t ++ rest)) = false := by
      simp only [isPre]
      rw [if_neg]
      intro hca
      exact hpre a (List.mem_cons_self a t) hca.symm
    simp only [List.cons_append, containsSub, hne, Bool.false_or, List.append_eq]
    exact ih fun x hx => hpre x (List.mem_cons_of_mem a hx)

theorem isPre_false_of_head (c : Char) (s x : Line) (d : Char) (hx : x.head? = some d)
    (hne : c ≠ d) : isPre (c :: s) x = false := by
  cases x with
  | nil => simp at hx
  | cons e xs =>
    simp only [List.head?_cons, Option.some.injEq] at hx
    subst hx
    simp only [isPre]
    rw [if_neg hne]

/-! ## The raw-text scan on tame documents

On a tame document every keyed match closes on the line it starts on,
so the multiline scan visits exactly the line starts and the scan
degenerates to the per-line parse. -/

theorem dropPre_some_eq (p l r : Line) (h : dropPre p l = some r) : l = p ++ r := by
  induction p generalizing l with
  | nil =>
    simp only [dropPre, Option.some.injEq] at h
    simp [h]
  | cons c ps ih =>
    cases l with
    | nil => simp [dropPre] at h
    | cons d ls =>
      simp only [dropPre] at h
      split at h
      · next hcd =>
        rw [List.cons_append, ← hcd]
        exact congrArg (List.cons c) (ih ls h)
      · exact absurd h (by simp)

theorem dropPre_nil (p : Line) (hp : p ≠ []) : dropPre p [] = none := by
  cases p with
  | nil => exact absurd rfl hp
  | cons c ps => rfl

theorem matchKeyedAt_nil (name : Line) : matchKeyedAt name [] = none := by
  unfold matchKeyedAt
  rw [dropPre_nil (name ++ [lbrack]) (by simp)]

/-- A successful match attempt decomposes the text as the assignment
followed by the remainder, with the group shapes forced by the
negated classes. -/
theorem matchKeyedAt_eq_some (name s k v r : Line)
    (h : matchKeyedAt name s = some ((k, v), r)) :
    s = name ++ lbrack :: (k ++ ']' :: eqc :: '"' :: (v ++ '"' :: r)) ∧
      k ≠ [] ∧ (∀ c ∈ k, c ≠ ']') ∧ (∀ c ∈ v, c ≠ '"') := by
  unfold matchKeyedAt at h
  cases hd : dropPre (name ++ [lbrack]) s with
  | none => rw [hd] at h; cases h
  | some r1 =>
    rw [hd] at h
    simp only at h
    by_cases hk : (r1.takeWhile fun c => !(c = ']')).isEmpty = true
    · rw [if_pos hk] at h
      cases h
    · rw [if_neg hk] at h
      have hs : s = (name ++ [lbrack]) ++ r1 := dropPre_some_eq _ _ _ hd
      split at h
      · rename_i r2 heq1
        split at h
        · rename_i r3 heq2
          injection h with h'
          simp only [Prod.mk.injEq] at h'
          obtain ⟨⟨hke, hve⟩, hre⟩ := h'
          rw [hre] at heq2
          have hr1 : r1 = k ++ (']' :: '=' :: '"' :: r2) := by
            rw [← hke, ← heq1]
            exact (List.takeWhile_append_dropWhile _ _).symm
          have hr2 : r2 = v ++ '"' :: r := by
            rw [← hve, ← heq2]
            exact (List.takeWhile_append_dropWhile _ _).symm
          refine ⟨?_, ?_, ?_, ?_⟩
          · rw [hs, hr1, hr2]
            simp [eqc]
          · rw [← hke]
            simpa [List.isEmpty_iff] using hk
          · rw [← hke]
            intro c hc
            simpa using List.mem_takeWhile_imp hc
          · rw [← hve]
            intro c hc
            simpa using List.mem_takeWhile_imp hc
        · cases h
      · cases h

theorem parseKeyed_eq_some (name l k v : Line) (h : parseKeyed name l = some (k, v)) :
    ∃ r, l = name ++ lbrack :: (k ++ ']' :: eqc :: '"' :: (v ++ '"' :: r)) ∧
      k ≠ [] ∧ (∀ c ∈ k, c ≠ ']') ∧ (∀ c ∈ v, c ≠ '"') := by
  unfold parseKeyed at h
  rcases Option.map_eq_some'.mp h with ⟨q, hq, hfst⟩
  obtain ⟨kv, r⟩ := q
  have hkv : kv = (k, v) := hfst
  subst hkv
  obtain ⟨h1, h2, h3, h4⟩ := matchKeyedAt_eq_some name l k v r hq
  exact ⟨r, h1, h2, h3, h4⟩

/-- Locality of a successful match: appended text is untouched. -/
theorem matchKeyedAt_append (name s k v r x : Line)
    (h : matchKeyedAt name s = some ((k, v), r)) :
    matchKeyedAt name (s ++ x) = some ((k, v), r ++ x) := by
  obtain ⟨hs, hk1, hk2, hv⟩ := matchKeyedAt_eq_some name s k v r h
  subst hs
  have he : (name ++ lbrack :: (k ++ ']' :: eqc :: '"' :: (v ++ '"' :: r))) ++ x
      = name ++ lbrack :: (k ++ ']' :: eqc :: '"' :: (v ++ '"' :: (r ++ x))) := by
    simp
  rw [he]
  exact matchKeyedAt_mk name k v (r ++ x) hk1 hk2 hv

/-- A failed anchored attempt on a whole line stays failed on the raw
text: the pattern cannot bridge the newline, as it contains none. -/
theorem isPre_append_newl (p l t : Line) (hp : ∀ c ∈ p, c ≠ newl)
    (h : isPre p l = false) (hl : noNewline l = true) :
    isPre p (l ++ newl :: t) = false := by
  induction l generalizing p with
  | nil =>
    cases p with
    | nil => simp [isPre] at h
    | cons c ps =>
      simp only [List.nil_append, isPre]
      rw [if_neg (hp c (List.mem_cons_self c ps))]
  | cons a ls ih =>
    cases p with
    | nil => simp [isPre] at h
    | cons c ps =>
      simp only [isPre, List.cons_append] at h ⊢
      split at h
      · next hca =>
        rw [if_pos hca]
        refine ih ps (fun d hd => hp d (List.mem_cons_of_mem c hd)) h ?_
        simp only [noNewline, List.all_cons, Bool.and_eq_true] at hl
        exact hl.2
      · next hca => rw [if_neg hca]

theorem dropLine_append_newl (l t : Line) (hl : noNewline l = true) :
    dropLine (l ++ newl :: t) = some t := by
  induction l with
  | nil => simp [dropLine]
  | cons a ls ih =>
    simp only [noNewline, List.all_cons, Bool.and_eq_true] at hl
    have ha : ¬ (a = newl) := by simpa using hl.1
    simp only [List.cons_append, dropLine, if_neg ha]
    exact ih hl.2

theorem dropLine_none (l : Line) (hl : noNewline l = true) : dropLine l = none := by
  induction l with
  | nil => rfl
  | cons a ls ih =>
    simp only [noNewline, List.all_cons, Bool.and_eq_true] at hl
    have ha : ¬ (a = newl) := by simpa using hl.1
    simp only [dropLine, if_neg ha]
    exact ih hl.2

theorem noNewline_sub (l r : Line) (hsub : ∀ c ∈ r, c ∈ l) (hl : noNewline l = true) :
    noNewline r = true := by
  simp only [noNewline, List.all_eq_true] at hl ⊢
  exact fun c hc => hl c (hsub c hc)

/-- The bridge: on a document of tame lines the multiline scan is the
line-by-line parse. -/
theorem scanKeyed_eq_lineEntries (name : Line) (hname : ∀ c ∈ name ++ [lbrack], c ≠ newl) :
    ∀ doc : Document, ∀ fuel : Nat, doc.length ≤ fuel →
      (∀ l ∈ doc, noNewline l = true ∧ keyClosed name l = true) →
      scanKeyed name fuel (joinDoc doc) = lineEntries name doc := by
  intro doc
  induction doc with
  | nil =>
    intro fuel _ _
    cases fuel with
    | zero => rfl
    | succ f =>
      show scanKeyed name (f + 1) [] = []
      simp [scanKeyed, matchKeyedAt_nil, dropLine]
  | cons l d ih =>
    intro fuel hfuel h
    obtain ⟨hnl, hkc⟩ := h l (List.mem_cons_self l d)
    have hd : ∀ x ∈ d, noNewline x = true ∧ keyClosed name x = true :=
      fun x hx => h x (List.mem_cons_of_mem l hx)
    cases d with
    | nil =>
      show scanKeyed name fuel l = lineEntries name [l]
      cases fuel with
      | zero => exact absurd hfuel (by simp)
      | succ f =>
        cases hm : matchKeyedAt name l with
        | none =>
          have hp : parseKeyed name l = none := by simp [parseKeyed, hm]
          simp [scanKeyed, hm, dropLine_none l hnl, lineEntries, hp]
        | some q =>
          obtain ⟨⟨k, v⟩, r⟩ := q
          have hp : parseKeyed name l = some (k, v) := by simp [parseKeyed, hm]
          have hnr : noNewline r = true := by
            obtain ⟨hdec, -, -, -⟩ := matchKeyedAt_eq_some name l k v r hm
            exact noNewline_sub l r
              (fun c hc => by rw [hdec]; simp [List.mem_append, List.mem_cons, hc]) hnl
          simp [scanKeyed, hm, dropLine_none r hnr, lineEntries, hp]
    | cons d0 d1 =>
      have hjoin : joinDoc (l :: d0 :: d1) = l ++ newl :: joinDoc (d0 :: d1) := rfl
      rw [hjoin]
      rw [List.length_cons] at hfuel
      cases fuel with
      | zero => exact absurd hfuel (by omega)
      | succ f =>
        have hfd : (d0 :: d1).length ≤ f := by omega
        cases hm : matchKeyedAt name l with
        | none =>
          have hp : parseKeyed name l = none := by simp [parseKeyed, hm]
          have hpre : isPre (name ++ [lbrack]) l = false := by
            have hx := hkc
            simp only [keyClosed, hp, Option.isSome_none, Bool.or_false,
              Bool.not_eq_true'] at hx
            exact hx
          have hM : matchKeyedAt name (l ++ newl :: joinDoc (d0 :: d1)) = none :=
            matchKeyedAt_none_of_not_pre _ _ (isPre_append_newl _ _ _ hname hpre hnl)
          have hD : dropLine (l ++ newl :: joinDoc (d0 :: d1)) = some (joinDoc (d0 :: d1)) :=
            dropLine_append_newl l _ hnl
          simp only [scanKeyed, hM, hD]
          rw [ih f hfd hd]
          simp [lineEntries, hp]
        | some q =>
          obtain ⟨⟨k, v⟩, r⟩ := q
          have hp : parseKeyed name l = some (k, v) := by simp [parseKeyed, hm]
          have hnr : noNewline r = true := by
            obtain ⟨hdec, -, -, -⟩ := matchKeyedAt_eq_some name l k v r hm
            exact noNewline_sub l r
              (fun c hc => by rw [hdec]; simp [List.mem_append, List.mem_cons, hc]) hnl
          have hM := matchKeyedAt_append name l k v r (newl :: joinDoc (d0 :: d1)) hm
          have hD : dropLine (r ++ newl :: joinDoc (d0 :: d1)) = some (joinDoc (d0 :: d1)) :=
            dropLine_append_newl r _ hnr
          simp only [scanKeyed, hM, hD]
          rw [ih f hfd hd]
          simp [lineEntries, hp]

/-- On a document of tame lines the faithful extraction of keyed
entries is the per-line parse. -/
theorem scan_eq_lineEntries (name : Line) (hname : ∀ c ∈ name ++ [lbrack], c ≠ newl)
    (doc : Document) (h : ∀ l ∈ doc, noNewline l = true ∧ keyClosed name l = true) :
    rawEntries name doc = lineEntries name doc :=
  scanKeyed_eq_lineEntries name hname doc doc.length (Nat.le_refl _) h

theorem tameLine_parts (l : Line) (h : tameLine l = true) :
    noNewline l = true ∧ keyClosed mapsName l = true ∧ keyClosed ideName l = true ∧
      keyClosed cfgName l = true ∧ keyClosed modsName l = true := by
  simpa [tameLine, Bool.and_eq_true, and_assoc] using h

theorem tame_raw_maps (doc : Document) (h : tame doc = true) :
    rawEntries mapsName doc = lineEntries mapsName doc :=
  scan_eq_lineEntries mapsName (by decide) doc fun l hl =>
    ⟨(tameLine_parts l (List.all_eq_true.mp h l hl)).1,
     (tameLine_parts l (List.all_eq_true.mp h l hl)).2.1⟩

theorem tame_raw_ide (doc : Document) (h : tame doc = true) :
    rawEntries ideName doc = lineEntries ideName doc :=
  scan_eq_lineEntries ideName (by decide) doc fun l hl =>
    ⟨(tameLine_parts l (List.all_eq_true.mp h l hl)).1,
     (tameLine_parts l (List.all_eq_true.mp h l hl)).2.2.1⟩

theorem tame_raw_cfg (doc : Document) (h : tame doc = true) :
    rawEntries cfgName doc = lineEntries cfgName doc :=
  scan_eq_lineEntries cfgName (by decide) doc fun l hl =>
    ⟨(tameLine_parts l (List.all_eq_true.mp h l hl)).1,
     (tameLine_parts l (List.all_eq_true.mp h l hl)).2.2.2.1⟩

theorem tame_raw_mods (doc : Document) (h : tame doc = true) :
    rawEntries modsName doc = lineEntries modsName doc :=
  scan_eq_lineEntries modsName (by decide) doc fun l hl =>
    ⟨(tameLine_parts l (List.all_eq_true.mp h l hl)).1,
     (tameLine_parts l (List.all_eq_true.mp h l hl)).2.2.2.2⟩

/-! ## Scalar substitution lemmas -/

theorem scalarSubst_cases (simple : List (Line × Line)) (l : Line) :
    scalarSubst simple l = l ∨
      ∃ p, p ∈ simple ∧ scalarSubst simple l = p.1 ++ eqc :: p.2 := by
  unfold scalarSubst
  cases hf : simple.find? fun p => isPre (p.1 ++ [eqc]) l with
  | none => exact Or.inl rfl
  | some p => exact Or.inr ⟨p, List.mem_of_find?_eq_some hf, rfl⟩

theorem scalarSubst_self (simple : List (Line × Line)) (l : Line)
    (h : ∀ p ∈ simple, isPre (p.1 ++ [eqc]) l = false) : scalarSubst simple l = l := by
  unfold scalarSubst
  rw [List.find?_eq_none.mpr fun p hp => by simp [h p hp]]

theorem scalarSubst_self_of_noScalar (uv : UserValues) (l : Line)
    (hwf : ∀ p ∈ uv.simple, p.1 ∈ scalarVars)
    (hl : noScalarPre l = true) : scalarSubst uv.simple l = l := by
  apply scalarSubst_self
  intro p hp
  have := List.all_eq_true.mp hl p.1 (hwf p hp)
  simpa using this

/-- The head character of a scalar-prefixed line, one of `G`, `B`, `C`. -/
theorem scalar_head_ne_hash (l : Line)
    (hl : (scalarVars.any fun v => isPre (v ++ [eqc]) l) = true) :
    ∃ c, l.head? = some c ∧ c ≠ '#' := by
  obtain ⟨v, hvmem, hvpre⟩ := List.any_eq_true.mp hl
  simp only [scalarVars, List.mem_cons, List.not_mem_nil, or_false] at hvmem
  rcases hvmem with rfl | rfl | rfl | rfl
  · exact ⟨'G', head_of_isPre 'G' _ l hvpre, by decide⟩
  · exact ⟨'B', head_of_isPre 'B' _ l hvpre, by decide⟩
  · exact ⟨'B', head_of_isPre 'B' _ l hvpre, by decide⟩
  · exact ⟨'C', head_of_isPre 'C' _ l hvpre, by decide⟩

/-- Branch conditions after substituting a scalar line whose extracted
values are free of the guard-marker text. -/
theorem scalarSubst_conditions (uv : UserValues) (l : Line)
    (hwf : ∀ p ∈ uv.simple, p.1 ∈ scalarVars)
    (hv : ∀ p ∈ uv.simple, containsSub mapMarker p.2 = false)
    (hl : (scalarVars.any fun v => isPre (v ++ [eqc]) l) = true)
    (hm : containsSub mapMarker l = false) :
    containsSub mapMarker (scalarSubst uv.simple l) = false ∧
    isPre ideHdr (scalarSubst uv.simple l) = false ∧
    isPre ciHdr (scalarSubst uv.simple l) = false ∧
    isPre modHdr (scalarSubst uv.simple l) = false := by
  rcases scalarSubst_cases uv.simple l with he | ⟨p, hp, he⟩
  · rw [he]
    obtain ⟨c, hc, hcne⟩ := scalar_head_ne_hash l hl
    exact ⟨hm,
      isPre_false_of_head '#' _ l c hc fun h => hcne h.symm,
      isPre_false_of_head '#' _ l c hc fun h => hcne h.symm,
      isPre_false_of_head '#' _ l c hc fun h => hcne h.symm⟩
  · obtain ⟨k, w⟩ := p
    rw [he]
    have hpv := hwf (k, w) hp
    have hval := hv (k, w) hp
    simp only [scalarVars, List.mem_cons, List.not_mem_nil, or_false] at hpv
    have hmark : containsSub mapMarker (k ++ eqc :: w) = false := by
      rw [show k ++ eqc :: w = (k ++ [eqc]) ++ w by simp]
      have he2 : containsSub mapMarker ((k ++ [eqc]) ++ w) = containsSub mapMarker w := by
        show containsSub ('[' :: _) _ = _
        apply containsSub_append_head
        rcases hpv with rfl | rfl | rfl | rfl <;> decide
      rw [he2]
      exact hval
    have hhead : (k ++ eqc :: w).head? = some (k.headD ' ') := by
      rcases hpv with rfl | rfl | rfl | rfl <;> rfl
    refine ⟨hmark, ?_, ?_, ?_⟩ <;>
      (apply isPre_false_of_head '#' _ _ (k.headD ' ') hhead
       rcases hpv with rfl | rfl | rfl | rfl <;> decide)

/-! ## Step lemmas for the driver loop -/

theorem normLoop_nil (uv : UserValues) : normLoop uv [] = [] := rfl

theorem normLoop_plain (uv : UserValues)
    (hwf : ∀ p ∈ uv.simple, p.1 ∈ scalarVars) (l : Line) (ls : Document)
    (hl : plainLine l = true) : normLoop uv (l :: ls) = l :: normLoop uv ls := by
  simp only [plainLine, Bool.and_eq_true, Bool.not_eq_true'] at hl
  obtain ⟨⟨⟨⟨h0, h1⟩, h2⟩, h3⟩, h4⟩ := hl
  have hs := scalarSubst_self_of_noScalar uv l hwf h0
  rw [normLoop_cons, hs, if_neg (by simp [h1]), if_neg (by simp [h2]),
    if_neg (by simp [h3]), if_neg (by simp [h4])]

theorem normLoop_scalar (uv : UserValues)
    (hwf : ∀ p ∈ uv.simple, p.1 ∈ scalarVars)
    (hv : ∀ p ∈ uv.simple, containsSub mapMarker p.2 = false) (l : Line) (ls : Document)
    (hl : scalarLine l = true) :
    normLoop uv (l :: ls) = scalarSubst uv.simple l :: normLoop uv ls := by
  simp only [scalarLine, Bool.and_eq_true, Bool.not_eq_true'] at hl
  obtain ⟨h0, h1⟩ := hl
  obtain ⟨hm, hide, hci, hmod⟩ := scalarSubst_conditions uv l hwf hv h0 h1
  rw [normLoop_cons, if_neg (by simp [hm]), if_neg (by simp [hide]),
    if_neg (by simp [hci]), if_neg (by simp [hmod])]

theorem normLoop_guard (uv : UserValues)
    (hwf : ∀ p ∈ uv.simple, p.1 ∈ scalarVars) (l : Line) (ls : Document)
    (hl : guardTrigger l = true) :
    normLoop uv (l :: ls)
      = l :: (mapsBlock uv ++ normLoop uv (ls.dropWhile fun x => !containsSub sectDelim x)) := by
  simp only [guardTrigger, Bool.and_eq_true] at hl
  obtain ⟨h0, h1⟩ := hl
  have hs := scalarSubst_self_of_noScalar uv l hwf h0
  rw [normLoop_cons, hs, if_pos h1]

theorem normLoop_ide (uv : UserValues)
    (hwf : ∀ p ∈ uv.simple, p.1 ∈ scalarVars) (l : Line) (ls : Document)
    (hl : ideTrigger l = true) :
    normLoop uv (l :: ls)
      = l :: (ls.takeWhile (fun x => !isPre ideCmt x) ++
          (bracketBlock ideName uv.ide_configs ++
            normLoop uv ((ls.dropWhile fun x => !isPre ideCmt x).dropWhile
              fun x => isPre ideCmt x))) := by
  simp only [ideTrigger, Bool.and_eq_true, Bool.not_eq_true'] at hl
  obtain ⟨⟨h0, h1⟩, h2⟩ := hl
  have hs := scalarSubst_self_of_noScalar uv l hwf h0
  rw [normLoop_cons, hs, if_neg (by simp [h1]), if_pos h2]

theorem normLoop_ci (uv : UserValues)
    (hwf : ∀ p ∈ uv.simple, p.1 ∈ scalarVars) (l : Line) (ls : Document)
    (hl : ciTrigger l = true) :
    normLoop uv (l :: ls)
      = l :: (ls.takeWhile (fun x => !ciStop x) ++
          (bracketBlock cfgName uv.repo_configs ++
            normLoop uv (exampleTail ((ls.dropWhile fun x => !ciStop x).dropWhile ciEx)))) := by
  simp only [ciTrigger, Bool.and_eq_true, Bool.not_eq_true'] at hl
  obtain ⟨⟨⟨h0, h1⟩, h2⟩, h3⟩ := hl
  have hs := scalarSubst_self_of_noScalar uv l hwf h0
  rw [normLoop_cons, hs, if_neg (by simp [h1]), if_neg (by simp [h2]), if_pos h3]

theorem normLoop_mod (uv : UserValues)
    (hwf : ∀ p ∈ uv.simple, p.1 ∈ scalarVars) (l : Line) (ls : Document)
    (hl : modTrigger l = true) :
    normLoop uv (l :: ls)
      = l :: (ls.takeWhile (fun x => !modStop x) ++
          (bracketBlock modsName uv.repo_modules ++
            normLoop uv (exampleTail ((ls.dropWhile fun x => !modStop x).dropWhile modEx)))) := by
  simp only [modTrigger, Bool.and_eq_true, Bool.not_eq_true'] at hl
  obtain ⟨⟨⟨⟨h0, h1⟩, h2⟩, h3⟩, h4⟩ := hl
  have hs := scalarSubst_self_of_noScalar uv l hwf h0
  rw [normLoop_cons, hs, if_neg (by simp [h1]), if_neg (by simp [h2]),
    if_neg (by simp [h3]), if_pos h4]

set_option maxHeartbeats 2000000 in
/-- The driver loop on the whole template: every line of the template
is classified by one of the step lemmas, and the traversal produces
the merged-template skeleton. -/
theorem normLoop_template (uv : UserValues)
    (hwf : ∀ p ∈ uv.simple, p.1 ∈ scalarVars)
    (hv : ∀ p ∈ uv.simple, containsSub mapMarker p.2 = false) :
    normLoop uv exampleConfig = mergedTemplate uv := by
  have hplain := normLoop_plain uv hwf
  have hscal := normLoop_scalar uv hwf hv
  have hguard := normLoop_guard uv hwf
  have hide := normLoop_ide uv hwf
  have hci := normLoop_ci uv hwf
  have hmod := normLoop_mod uv hwf
  simp +decide only [exampleConfig, mergedTemplate, tSeg0, tSeg1, tSeg2, tSeg3, tSeg4,
    tSeg5, tSeg6, tSeg7, tSeg8, cvTL, guTL, bpTL, bdTL,
    hplain, hscal, hguard, hide, hci, hmod, normLoop_nil,
    List.dropWhile_cons, List.takeWhile_cons, List.dropWhile_nil, List.takeWhile_nil,
    exampleTail, List.cons_append, List.nil_append, List.append_assoc, if_true, if_false]

/-! ## Characterization of the extracted record -/

theorem mem_simple_iff (u : Document) (var val : Line) :
    (var, val) ∈ (extractUserValues u).simple ↔
      var ∈ scalarVars ∧ findScalar var u = some val := by
  simp only [extractUserValues, List.mem_filterMap]
  constructor
  · rintro ⟨v, hvmem, heq⟩
    rcases Option.map_eq_some'.mp heq with ⟨w, hw, hvw⟩
    have h1 : v = var := congrArg Prod.fst hvw
    have h2 : w = val := congrArg Prod.snd hvw
    subst h1
    subst h2
    exact ⟨hvmem, hw⟩
  · rintro ⟨hvmem, hw⟩
    exact ⟨var, hvmem, by rw [hw]; rfl⟩

theorem extract_simple_wf (u : Document) :
    ∀ p ∈ (extractUserValues u).simple, p.1 ∈ scalarVars := by
  intro p hp
  obtain ⟨k, w⟩ := p
  exact ((mem_simple_iff u k w).mp hp).1

theorem find_filterMap_scalar (u : Document) (var dflt : Line) (vs : List Line)
    (hline : ∀ v ∈ vs, isPre (v ++ [eqc]) (var ++ eqc :: dflt) = decide (v = var)) :
    (vs.filterMap fun v => (findScalar v u).map fun w => (v, w)).find?
        (fun p => isPre (p.1 ++ [eqc]) (var ++ eqc :: dflt))
      = if var ∈ vs then (findScalar var u).map (fun w => (var, w)) else none := by
  induction vs with
  | nil => simp
  | cons v vs ih =>
    have hv := hline v (List.mem_cons_self v vs)
    have ih' := ih fun x hx => hline x (List.mem_cons_of_mem v hx)
    by_cases hev : v = var
    · subst hev
      simp at hv
      cases hf : findScalar v u with
      | none =>
        simp only [List.filterMap_cons, hf, Option.map_none', ih']
        by_cases hmem : v ∈ vs
        · simp [hmem, hf]
        · simp [hmem]
      | some w =>
        simp only [List.filterMap_cons, hf, Option.map_some']
        rw [List.find?_cons_of_pos _ (by simpa using hv)]
        simp [hf]
    · have hv' : isPre (v ++ [eqc]) (var ++ eqc :: dflt) = false := by
        rw [hv]
        simp [hev]
      cases hf : findScalar v u with
      | none =>
        simp only [List.filterMap_cons, hf, Option.map_none', ih']
        have hev' : ¬ var = v := fun h => hev h.symm
        simp [List.mem_cons, hev']
      | some w =>
        simp only [List.filterMap_cons, hf, Option.map_some']
        rw [List.find?_cons_of_neg _ (by simp [hv'])]
        rw [ih']
        have hev' : ¬ var = v := fun h => hev h.symm
        simp [List.mem_cons, hev']

/-- Substituting the extracted settings into a line of the form
`VAR=<default>` yields the user's value when one was extracted and the
default otherwise. -/
theorem scalarSubst_extract_line (u : Document) (var dflt : Line)
    (hvar : var ∈ scalarVars)
    (hline : ∀ v ∈ scalarVars, isPre (v ++ [eqc]) (var ++ eqc :: dflt) = decide (v = var)) :
    scalarSubst (extractUserValues u).simple (var ++ eqc :: dflt)
      = var ++ eqc :: ((findScalar var u).getD dflt) := by
  unfold scalarSubst
  have hfind := find_filterMap_scalar u var dflt scalarVars hline
  rw [show (extractUserValues u).simple
      = scalarVars.filterMap fun v => (findScalar v u).map fun w => (v, w) from rfl]
  rw [hfind, if_pos hvar]
  cases hf : findScalar var u <;> simp

/-! ## Filters over the merged template -/

theorem mkAssign_eq (name : Line) (p : Line × Line) :
    mkAssign name p = (name ++ [lbrack]) ++ (p.1 ++ ']' :: '=' :: '"' :: (p.2 ++ ['"'])) := by
  simp [mkAssign, eqc]

theorem isPre_mkAssign_self (name : Line) (p : Line × Line) :
    isPre (name ++ [lbrack]) (mkAssign name p) = true := by
  rw [mkAssign_eq]
  exact isPre_append_self _ _

theorem isPre_mkAssign_other (a name : Line) (p : Line × Line)
    (h : isPre (a.take (name ++ [lbrack]).length) (name ++ [lbrack]) = false) :
    isPre a (mkAssign name p) = false := by
  rw [mkAssign_eq]
  exact not_pre_of_take a _ _ h

theorem isPre_nonnil_nil (a : Line) (h : a ≠ []) : isPre a [] = false := by
  cases a with
  | nil => exact absurd rfl h
  | cons c s => rfl

theorem filter_mapsBlock_self (uv : UserValues) :
    (mapsBlock uv).filter (fun l => isPre (mapsName ++ [lbrack]) l)
      = uv.mappings.map (mkAssign mapsName) := by
  unfold mapsBlock
  by_cases hE : uv.mappings.isEmpty = true
  · rw [if_pos hE, List.isEmpty_iff.mp hE]
    rfl
  · rw [if_neg hE, List.filter_cons]
    rw [if_neg (by simp [emptyLine, isPre_nonnil_nil (mapsName ++ [lbrack]) (by decide)])]
    rw [List.filter_map]
    rw [show (fun l => isPre (mapsName ++ [lbrack]) l) ∘ mkAssign mapsName
      = fun p => isPre (mapsName ++ [lbrack]) (mkAssign mapsName p) from rfl]
    rw [List.filter_eq_self.mpr fun p _ => isPre_mkAssign_self mapsName p]

theorem filter_mapsBlock_none (uv : UserValues) (pat : Line)
    (hpat : ∀ p : Line × Line, isPre pat (mkAssign mapsName p) = false)
    (hnil : isPre pat emptyLine = false) :
    (mapsBlock uv).filter (fun l => isPre pat l) = [] := by
  unfold mapsBlock
  by_cases hE : uv.mappings.isEmpty = true
  · rw [if_pos hE]
    rfl
  · rw [if_neg hE, List.filter_cons, if_neg (by simp [hnil])]
    rw [List.filter_map]
    rw [show (fun l => isPre pat l) ∘ mkAssign mapsName
      = fun p => isPre pat (mkAssign mapsName p) from rfl]
    rw [List.filter_eq_nil_iff.mpr fun p _ => by simp [hpat p], List.map_nil]

theorem filter_bracketBlock_self (name : Line) (entries : List (Line × Line))
    (hnn : (name ++ [lbrack]) ≠ []) :
    (bracketBlock name entries).filter (fun l => isPre (name ++ [lbrack]) l)
      = entries.map (mkAssign name) := by
  unfold bracketBlock
  by_cases hE : entries.isEmpty = true
  · rw [if_pos hE, List.isEmpty_iff.mp hE]
    rfl
  · rw [if_neg hE, List.filter_cons]
    rw [if_neg (by simp [emptyLine, isPre_nonnil_nil _ hnn])]
    rw [List.filter_append, List.filter_map]
    rw [show (fun l => isPre (name ++ [lbrack]) l) ∘ mkAssign name
      = fun p => isPre (name ++ [lbrack]) (mkAssign name p) from rfl]
    rw [List.filter_eq_self.mpr fun p _ => isPre_mkAssign_self name p]
    rw [show List.filter (fun l => isPre (name ++ [lbrack]) l) [emptyLine] = [] by
      simp [List.filter_cons, emptyLine, isPre_nonnil_nil _ hnn]]
    rw [List.append_nil]

theorem filter_bracketBlock_none (name : Line) (entries : List (Line × Line)) (pat : Line)
    (hpat : ∀ p : Line × Line, isPre pat (mkAssign name p) = false)
    (hnil : isPre pat emptyLine = false) :
    (bracketBlock name entries).filter (fun l => isPre pat l) = [] := by
  unfold bracketBlock
  by_cases hE : entries.isEmpty = true
  · rw [if_pos hE]
    rfl
  · rw [if_neg hE, List.filter_cons, if_neg (by simp [hnil])]
    rw [List.filter_append, List.filter_map]
    rw [show (fun l => isPre pat l) ∘ mkAssign name
      = fun p => isPre pat (mkAssign name p) from rfl]
    rw [List.filter_eq_nil_iff.mpr fun p _ => by simp [hpat p], List.map_nil]
    simp [List.filter_cons, hnil]

theorem isPre_pat_scalar_out (pat v x : Line)
    (h : isPre (pat.take (v ++ [eqc]).length) (v ++ [eqc]) = false) :
    isPre pat (v ++ eqc :: x) = false := by
  rw [List.append_cons]
  exact not_pre_of_take _ _ _ h

theorem isPre_self_scalar_out (v x : Line) : isPre (v ++ [eqc]) (v ++ eqc :: x) = true := by
  have h := isPre_append_self (v ++ [eqc]) x
  rw [List.append_assoc] at h
  simpa using h

/-- The merge output on the template, with the four emitted scalar
lines written out: the user's value where one was extracted, the
template default otherwise. -/
theorem normalize_eq_skeleton (u : Document)
    (hv : ∀ p ∈ (extractUserValues u).simple, containsSub mapMarker p.2 = false) :
    normalize u exampleConfig =
      tSeg0 ++ (cfgVerName ++ eqc :: ((findScalar cfgVerName u).getD (strL "1"))) ::
        (tSeg1 ++ (gitUserName ++ eqc :: ((findScalar gitUserName u).getD (strL "\"$\x7bUSER\x7d\""))) ::
          (tSeg2 ++ (branchPreName ++ eqc :: ((findScalar branchPreName u).getD (strL "\"$\x7bUSER\x7d\""))) ::
            (tSeg3 ++ (baseDevName ++ eqc :: ((findScalar baseDevName u).getD (strL "\"$HOME/dev\""))) ::
              (tSeg4 ++ (mapsBlock (extractUserValues u) ++ (tSeg5 ++
                (bracketBlock ideName (extractUserValues u).ide_configs ++ (tSeg6 ++
                  (bracketBlock cfgName (extractUserValues u).repo_configs ++ (tSeg7 ++
                    (bracketBlock modsName (extractUserValues u).repo_modules ++ tSeg8))))))))))) := by
  have hwf := extract_simple_wf u
  show normLoop (extractUserValues u) exampleConfig = _
  rw [normLoop_template (extractUserValues u) hwf hv]
  unfold mergedTemplate
  rw [show cvTL = cfgVerName ++ eqc :: strL "1" from rfl,
      show guTL = gitUserName ++ eqc :: strL "\"$\x7bUSER\x7d\"" from rfl,
      show bpTL = branchPreName ++ eqc :: strL "\"$\x7bUSER\x7d\"" from rfl,
      show bdTL = baseDevName ++ eqc :: strL "\"$HOME/dev\"" from rfl]
  rw [scalarSubst_extract_line u cfgVerName (strL "1") (by decide) (by decide),
      scalarSubst_extract_line u gitUserName (strL "\"$\x7bUSER\x7d\"") (by decide) (by decide),
      scalarSubst_extract_line u branchPreName (strL "\"$\x7bUSER\x7d\"") (by decide) (by decide),
      scalarSubst_extract_line u baseDevName (strL "\"$HOME/dev\"") (by decide) (by decide)]

set_option maxHeartbeats 2000000 in
theorem c1_maps_filter (u : Document)
    (hv : ∀ p ∈ (extractUserValues u).simple, containsSub mapMarker p.2 = false) :
    (normalize u exampleConfig).filter (fun l => isPre (mapsName ++ [lbrack]) l)
      = (extractUserValues u).mappings.map (mkAssign mapsName) := by
  rw [normalize_eq_skeleton u hv]
  have hb1 : (bracketBlock ideName (extractUserValues u).ide_configs).filter (fun l => isPre (mapsName ++ [lbrack]) l) = [] :=
    filter_bracketBlock_none _ _ _ (fun p => isPre_mkAssign_other _ _ p (by decide)) (by decide)
  have hb2 : (bracketBlock cfgName (extractUserValues u).repo_configs).filter (fun l => isPre (mapsName ++ [lbrack]) l) = [] :=
    filter_bracketBlock_none _ _ _ (fun p => isPre_mkAssign_other _ _ p (by decide)) (by decide)
  have hb3 : (bracketBlock modsName (extractUserValues u).repo_modules).filter (fun l => isPre (mapsName ++ [lbrack]) l) = [] :=
    filter_bracketBlock_none _ _ _ (fun p => isPre_mkAssign_other _ _ p (by decide)) (by decide)
  have hbs : (mapsBlock (extractUserValues u)).filter (fun l => isPre (mapsName ++ [lbrack]) l)
      = (extractUserValues u).mappings.map (mkAssign mapsName) := filter_mapsBlock_self (extractUserValues u)
  simp +decide only [List.filter_append, List.filter_cons, isPre_pat_scalar_out,
    hb1, hb2, hb3, hbs, tSeg0, tSeg1, tSeg2, tSeg3, tSeg4, tSeg5,
    tSeg6, tSeg7, tSeg8, List.filter_nil, if_true, if_false, List.nil_append, List.append_nil]

set_option maxHeartbeats 2000000 in
theorem c1_ide_filter (u : Document)
    (hv : ∀ p ∈ (extractUserValues u).simple, containsSub mapMarker p.2 = false) :
    (normalize u exampleConfig).filter (fun l => isPre (ideName ++ [lbrack]) l)
      = (extractUserValues u).ide_configs.map (mkAssign ideName) := by
  rw [normalize_eq_skeleton u hv]
  have hb1 : (mapsBlock (extractUserValues u)).filter (fun l => isPre (ideName ++ [lbrack]) l) = [] :=
    filter_mapsBlock_none _ _ (fun p => isPre_mkAssign_other _ _ p (by decide)) (by decide)
  have hb2 : (bracketBlock cfgName (extractUserValues u).repo_configs).filter (fun l => isPre (ideName ++ [lbrack]) l) = [] :=
    filter_bracketBlock_none _ _ _ (fun p => isPre_mkAssign_other _ _ p (by decide)) (by decide)
  have hb3 : (bracketBlock modsName (extractUserValues u).repo_modules).filter (fun l => isPre (ideName ++ [lbrack]) l) = [] :=
    filter_bracketBlock_none _ _ _ (fun p => isPre_mkAssign_other _ _ p (by decide)) (by decide)
  have hbs : (bracketBlock ideName (extractUserValues u).ide_configs).filter (fun l => isPre (ideName ++ [lbrack]) l)
      = (extractUserValues u).ide_configs.map (mkAssign ideName) := filter_bracketBlock_self ideName _ (by decide)
  simp +decide only [List.filter_append, List.filter_cons, isPre_pat_scalar_out,
    hb1, hb2, hb3, hbs, tSeg0, tSeg1, tSeg2, tSeg3, tSeg4, tSeg5,
    tSeg6, tSeg7, tSeg8, List.filter_nil, if_true, if_false, List.nil_append, List.append_nil]

set_option maxHeartbeats 2000000 in
theorem c1_cfg_filter (u : Document)
    (hv : ∀ p ∈ (extractUserValues u).simple, containsSub mapMarker p.2 = false) :
    (normalize u exampleConfig).filter (fun l => isPre (cfgName ++ [lbrack]) l)
      = (extractUserValues u).repo_configs.map (mkAssign cfgName) := by
  rw [normalize_eq_skeleton u hv]
  have hb1 : (mapsBlock (extractUserValues u)).filter (fun l => isPre (cfgName ++ [lbrack]) l) = [] :=
    filter_mapsBlock_none _ _ (fun p => isPre_mkAssign_other _ _ p (by decide)) (by decide)
  have hb2 : (bracketBlock ideName (extractUserValues u).ide_configs).filter (fun l => isPre (cfgName ++ [lbrack]) l) = [] :=
    filter_bracketBlock_none _ _ _ (fun p => isPre_mkAssign_other _ _ p (by decide)) (by decide)
  have hb3 : (bracketBlock modsName (extractUserValues u).repo_modules).filter (fun l => isPre (cfgName ++ [lbrack]) l) = [] :=
    filter_bracketBlock_none _ _ _ (fun p => isPre_mkAssign_other _ _ p (by decide)) (by decide)
  have hbs : (bracketBlock cfgName (extractUserValues u).repo_configs).filter (fun l => isPre (cfgName ++ [lbrack]) l)
      = (extractUserValues u).repo_configs.map (mkAssign cfgName) := filter_bracketBlock_self cfgName _ (by decide)
  simp +decide only [List.filter_append, List.filter_cons, isPre_pat_scalar_out,
    hb1, hb2, hb3, hbs, tSeg0, tSeg1, tSeg2, tSeg3, tSeg4, tSeg5,
    tSeg6, tSeg7, tSeg8, List.filter_nil, if_true, if_false, List.nil_append, List.append_nil]

set_option maxHeartbeats 2000000 in
theorem c1_mods_filter (u : Document)
    (hv : ∀ p ∈ (extractUserValues u).simple, containsSub mapMarker p.2 = false) :
    (normalize u exampleConfig).filter (fun l => isPre (modsName ++ [lbrack]) l)
      = (extractUserValues u).repo_modules.map (mkAssign modsName) := by
  rw [normalize_eq_skeleton u hv]
  have hb1 : (mapsBlock (extractUserValues u)).filter (fun l => isPre (modsName ++ [lbrack]) l) = [] :=
    filter_mapsBlock_none _ _ (fun p => isPre_mkAssign_other _ _ p (by decide)) (by decide)
  have hb2 : (bracketBlock ideName (extractUserValues u).ide_configs).filter (fun l => isPre (modsName ++ [lbrack]) l) = [] :=
    filter_bracketBlock_none _ _ _ (fun p => isPre_mkAssign_other _ _ p (by decide)) (by decide)
  have hb3 : (bracketBlock cfgName (extractUserValues u).repo_configs).filter (fun l => isPre (modsName ++ [lbrack]) l) = [] :=
    filter_bracketBlock_none _ _ _ (fun p => isPre_mkAssign_other _ _ p (by decide)) (by decide)
  have hbs : (bracketBlock modsName (extractUserValues u).repo_modules).filter (fun l => isPre (modsName ++ [lbrack]) l)
      = (extractUserValues u).repo_modules.map (mkAssign modsName) := filter_bracketBlock_self modsName _ (by decide)
  simp +decide only [List.filter_append, List.filter_cons, isPre_pat_scalar_out,
    hb1, hb2, hb3, hbs, tSeg0, tSeg1, tSeg2, tSeg3, tSeg4, tSeg5,
    tSeg6, tSeg7, tSeg8, List.filter_nil, if_true, if_false, List.nil_append, List.append_nil]

set_option maxHeartbeats 2000000 in
theorem c1_scalar_filter (u : Document)
    (hv : ∀ p ∈ (extractUserValues u).simple, containsSub mapMarker p.2 = false)
    (var val : Line) (hmem : (var, val) ∈ (extractUserValues u).simple) :
    (normalize u exampleConfig).filter (fun l => isPre (var ++ [eqc]) l)
      = [var ++ eqc :: val] := by
  obtain ⟨hvar, hfind⟩ := (mem_simple_iff u var val).mp hmem
  rw [normalize_eq_skeleton u hv]
  simp only [scalarVars, List.mem_cons, List.not_mem_nil, or_false] at hvar
  rcases hvar with rfl | rfl | rfl | rfl
  · rw [hfind]
    have hb0 : (mapsBlock (extractUserValues u)).filter
        (fun l => isPre (gitUserName ++ [eqc]) l) = [] :=
      filter_mapsBlock_none _ _ (fun p => isPre_mkAssign_other _ _ p (by decide)) (by decide)
    have hb1 : (bracketBlock ideName (extractUserValues u).ide_configs).filter
        (fun l => isPre (gitUserName ++ [eqc]) l) = [] :=
      filter_bracketBlock_none _ _ _ (fun p => isPre_mkAssign_other _ _ p (by decide)) (by decide)
    have hb2 : (bracketBlock cfgName (extractUserValues u).repo_configs).filter
        (fun l => isPre (gitUserName ++ [eqc]) l) = [] :=
      filter_bracketBlock_none _ _ _ (fun p => isPre_mkAssign_other _ _ p (by decide)) (by decide)
    have hb3 : (bracketBlock modsName (extractUserValues u).repo_modules).filter
        (fun l => isPre (gitUserName ++ [eqc]) l) = [] :=
      filter_bracketBlock_none _ _ _ (fun p => isPre_mkAssign_other _ _ p (by decide)) (by decide)
    simp +decide only [Option.getD_some, List.filter_append, List.filter_cons,
      isPre_pat_scalar_out, isPre_self_scalar_out, hb0, hb1, hb2, hb3,
      tSeg0, tSeg1, tSeg2, tSeg3, tSeg4, tSeg5, tSeg6, tSeg7, tSeg8,
      List.filter_nil, if_true, if_false, List.nil_append, List.append_nil]
  · rw [hfind]
    have hb0 : (mapsBlock (extractUserValues u)).filter
        (fun l => isPre (branchPreName ++ [eqc]) l) = [] :=
      filter_mapsBlock_none _ _ (fun p => isPre_mkAssign_other _ _ p (by decide)) (by decide)
    have hb1 : (bracketBlock ideName (extractUserValues u).ide_configs).filter
        (fun l => isPre (branchPreName ++ [eqc]) l) = [] :=
      filter_bracketBlock_none _ _ _ (fun p => isPre_mkAssign_other _ _ p (by decide)) (by decide)
    have hb2 : (bracketBlock cfgName (extractUserValues u).repo_configs).filter
        (fun l => isPre (branchPreName ++ [eqc]) l) = [] :=
      filter_bracketBlock_none _ _ _ (fun p => isPre_mkAssign_other _ _ p (by decide)) (by decide)
    have hb3 : (bracketBlock modsName (extractUserValues u).repo_modules).filter
        (fun l => isPre (branchPreName ++ [eqc]) l) = [] :=
      filter_bracketBlock_none _ _ _ (fun p => isPre_mkAssign_other _ _ p (by decide)) (by decide)
    simp +decide only [Option.getD_some, List.filter_append, List.filter_cons,
      isPre_pat_scalar_out, isPre_self_scalar_out, hb0, hb1, hb2, hb3,
      tSeg0, tSeg1, tSeg2, tSeg3, tSeg4, tSeg5, tSeg6, tSeg7, tSeg8,
      List.filter_nil, if_true, if_false, List.nil_append, List.append_nil]
  · rw [hfind]
    have hb0 : (mapsBlock (extractUserValues u)).filter
        (fun l => isPre (baseDevName ++ [eqc]) l) = [] :=
      filter_mapsBlock_none _ _ (fun p => isPre_mkAssign_other _ _ p (by decide)) (by decide)
    have hb1 : (bracketBlock ideName (extractUserValues u).ide_configs).filter
        (fun l => isPre (baseDevName ++ [eqc]) l) = [] :=
      filter_bracketBlock_none _ _ _ (fun p => isPre_mkAssign_other _ _ p (by decide)) (by decide)
    have hb2 : (bracketBlock cfgName (extractUserValues u).repo_configs).filter
        (fun l => isPre (baseDevName ++ [eqc]) l) = [] :=
      filter_bracketBlock_none _ _ _ (fun p => isPre_mkAssign_other _ _ p (by decide)) (by decide)
    have hb3 : (bracketBlock modsName (extractUserValues u).repo_modules).filter
        (fun l => isPre (baseDevName ++ [eqc]) l) = [] :=
      filter_bracketBlock_none _ _ _ (fun p => isPre_mkAssign_other _ _ p (by decide)) (by decide)
    simp +decide only [Option.getD_some, List.filter_append, List.filter_cons,
      isPre_pat_scalar_out, isPre_self_scalar_out, hb0, hb1, hb2, hb3,
      tSeg0, tSeg1, tSeg2, tSeg3, tSeg4, tSeg5, tSeg6, tSeg7, tSeg8,
      List.filter_nil, if_true, if_false, List.nil_append, List.append_nil]
  · rw [hfind]
    have hb0 : (mapsBlock (extractUserValues u)).filter
        (fun l => isPre (cfgVerName ++ [eqc]) l) = [] :=
      filter_mapsBlock_none _ _ (fun p => isPre_mkAssign_other _ _ p (by decide)) (by decide)
    have hb1 : (bracketBlock ideName (extractUserValues u).ide_configs).filter
        (fun l => isPre (cfgVerName ++ [eqc]) l) = [] :=
      filter_bracketBlock_none _ _ _ (fun p => isPre_mkAssign_other _ _ p (by decide)) (by decide)
    have hb2 : (bracketBlock cfgName (extractUserValues u).repo_configs).filter
        (fun l => isPre (cfgVerName ++ [eqc]) l) = [] :=
      filter_bracketBlock_none _ _ _ (fun p => isPre_mkAssign_other _ _ p (by decide)) (by decide)
    have hb3 : (bracketBlock modsName (extractUserValues u).repo_modules).filter
        (fun l => isPre (cfgVerName ++ [eqc]) l) = [] :=
      filter_bracketBlock_none _ _ _ (fun p => isPre_mkAssign_other _ _ p (by decide)) (by decide)
    simp +decide only [Option.getD_some, List.filter_append, List.filter_cons,
      isPre_pat_scalar_out, isPre_self_scalar_out, hb0, hb1, hb2, hb3,
      tSeg0, tSeg1, tSeg2, tSeg3, tSeg4, tSeg5, tSeg6, tSeg7, tSeg8,
      List.filter_nil, if_true, if_false, List.nil_append, List.append_nil]

/-- C1 (amended): for every tame user document (no embedded newlines,
every keyed assignment completed on its own line) none of whose
extracted scalar values contains the alias-guard marker text, the
lines of `merge(user, template)` carrying an assignment of each
category are exactly the extracted entries of that category, once
each, with keys normalized to shorthand and in extraction order; no
template example entry survives; and each extracted scalar setting
appears on exactly one line of the output.  Tameness confines every
extraction match to one line, so the emitted lines are also the text
lines of the written output. -/
theorem merge_preserves_user_values (u : Document) (_hu : tame u = true)
    (hv : ∀ p ∈ (extractUserValues u).simple, containsSub mapMarker p.2 = false) :
    ((normalize u exampleConfig).filter (fun l => isPre (mapsName ++ [lbrack]) l)
        = (extractUserValues u).mappings.map (mkAssign mapsName)) ∧
    ((normalize u exampleConfig).filter (fun l => isPre (ideName ++ [lbrack]) l)
        = (extractUserValues u).ide_configs.map (mkAssign ideName)) ∧
    ((normalize u exampleConfig).filter (fun l => isPre (cfgName ++ [lbrack]) l)
        = (extractUserValues u).repo_configs.map (mkAssign cfgName)) ∧
    ((normalize u exampleConfig).filter (fun l => isPre (modsName ++ [lbrack]) l)
        = (extractUserValues u).repo_modules.map (mkAssign modsName)) ∧
    (∀ var val, (var, val) ∈ (extractUserValues u).simple →
      (normalize u exampleConfig).filter (fun l => isPre (var ++ [eqc]) l)
        = [var ++ eqc :: val]) :=
  ⟨c1_maps_filter u hv, c1_ide_filter u hv, c1_cfg_filter u hv, c1_mods_filter u hv,
   fun var val hmem => c1_scalar_filter u hv var val hmem⟩

set_option maxRecDepth 1000000 in
/-- Witness for the amended C1 at a concrete user document. -/
theorem merge_preserves_user_values_witness :
    ((normalize demoUser exampleConfig).filter (fun l => isPre (mapsName ++ [lbrack]) l)
        = (extractUserValues demoUser).mappings.map (mkAssign mapsName)) ∧
    ((normalize demoUser exampleConfig).filter (fun l => isPre (cfgName ++ [lbrack]) l)
        = (extractUserValues demoUser).repo_configs.map (mkAssign cfgName)) ∧
    ((normalize demoUser exampleConfig).filter (fun l => isPre (gitUserName ++ [eqc]) l)
        = [gitUserName ++ eqc :: strL "testuser"]) := by
  have h := merge_preserves_user_values demoUser (by decide) (by decide)
  exact ⟨h.1, h.2.2.1, h.2.2.2.2 gitUserName (strL "testuser") (by decide)⟩

set_option maxRecDepth 1000000 in
/-- C1 counterexample: on `markerUser`, whose `GIT_USERNAME` value
contains the guard-marker text, the single extracted alias entry is
emitted twice, so it does not appear exactly once in the output. -/
theorem merge_marker_user_duplicates :
    ¬ ((normalize markerUser exampleConfig).filter (fun l => isPre (mapsName ++ [lbrack]) l)
        = (extractUserValues markerUser).mappings.map (mkAssign mapsName)) := by
  decide

/-! ## Well-formedness of extracted entries, and re-extraction -/

theorem lineEntries_wf (name : Line) (doc : Document)
    (hn : ∀ l ∈ doc, noNewline l = true) :
    ∀ p ∈ lineEntries name doc, EntryWF p := by
  intro p hp
  obtain ⟨l, hl, hparse⟩ := List.mem_filterMap.mp hp
  obtain ⟨k, v⟩ := p
  obtain ⟨r, hdec, hk1, hk2, hv⟩ := parseKeyed_eq_some name l k v hparse
  refine ⟨hk1, hk2, hv, ?_, ?_⟩
  · exact noNewline_sub l k
      (fun c hc => by rw [hdec]; simp [List.mem_append, List.mem_cons, hc]) (hn l hl)
  · exact noNewline_sub l v
      (fun c hc => by rw [hdec]; simp [List.mem_append, List.mem_cons, hc]) (hn l hl)

theorem resolveKey_mem (maps : List (Line × Line)) (k : Line) :
    resolveKey maps k = k ∨ ∃ p ∈ maps, resolveKey maps k = p.1 := by
  unfold resolveKey fullToShort
  cases hf : maps.reverse.find? fun p => decide (p.2 = k) with
  | none => exact Or.inl rfl
  | some p =>
    exact Or.inr ⟨p, List.mem_reverse.mp (List.mem_of_find?_eq_some hf), rfl⟩

theorem resolveEntries_wf (maps entries : List (Line × Line))
    (hm : ∀ p ∈ maps, EntryWF p) (he : ∀ p ∈ entries, EntryWF p) :
    ∀ p ∈ resolveEntries maps entries, EntryWF p := by
  intro p hp
  obtain ⟨q, hq, rfl⟩ := List.mem_map.mp hp
  refine ⟨?_, ?_, (he q hq).2.2.1, ?_, (he q hq).2.2.2.2⟩
  · rcases resolveKey_mem maps q.1 with h | ⟨r, hr, h⟩
    · simpa [h] using (he q hq).1
    · simpa [h] using (hm r hr).1
  · rcases resolveKey_mem maps q.1 with h | ⟨r, hr, h⟩
    · simpa [h] using (he q hq).2.1
    · simpa [h] using (hm r hr).2.1
  · rcases resolveKey_mem maps q.1 with h | ⟨r, hr, h⟩
    · simpa [h] using (he q hq).2.2.2.1
    · simpa [h] using (hm r hr).2.2.2.1

theorem filterMap_some_id {α : Type} (f : α → Option α) (l : List α)
    (h : ∀ x ∈ l, f x = some x) : l.filterMap f = l := by
  induction l with
  | nil => rfl
  | cons a l ih =>
    rw [List.filterMap_cons, h a (List.mem_cons_self a l),
      ih fun x hx => h x (List.mem_cons_of_mem a hx)]

theorem filterMap_none_of_none {α β : Type} (f : α → Option β) (l : List α)
    (h : ∀ x ∈ l, f x = none) : l.filterMap f = [] := by
  induction l with
  | nil => rfl
  | cons a l ih =>
    rw [List.filterMap_cons, h a (List.mem_cons_self a l),
      ih fun x hx => h x (List.mem_cons_of_mem a hx)]

theorem parseKeyed_scalar_out (name v x : Line)
    (h : isPre ((name ++ [lbrack]).take (v ++ [eqc]).length) (v ++ [eqc]) = false) :
    parseKeyed name (v ++ eqc :: x) = none :=
  parseKeyed_none_of_not_pre _ _ (isPre_pat_scalar_out _ _ _ h)

theorem filterMap_parse_mapsBlock (uv : UserValues)
    (hwfE : ∀ p ∈ uv.mappings, p.1 ≠ [] ∧ (∀ c ∈ p.1, c ≠ ']') ∧ (∀ c ∈ p.2, c ≠ '"')) :
    (mapsBlock uv).filterMap (parseKeyed mapsName) = uv.mappings := by
  unfold mapsBlock
  by_cases hE : uv.mappings.isEmpty = true
  · rw [if_pos hE, List.isEmpty_iff.mp hE]
    rfl
  · rw [if_neg hE, List.filterMap_cons,
      show parseKeyed mapsName emptyLine = none from by decide, List.filterMap_map]
    exact filterMap_some_id _ _ fun p hp =>
      parse_mkAssign mapsName p (hwfE p hp).1 (hwfE p hp).2.1 (hwfE p hp).2.2

theorem filterMap_parse_mapsBlock_none (uv : UserValues) (name : Line)
    (hname : ∀ p : Line × Line, parseKeyed name (mkAssign mapsName p) = none)
    (hempty : parseKeyed name emptyLine = none) :
    (mapsBlock uv).filterMap (parseKeyed name) = [] := by
  unfold mapsBlock
  by_cases hE : uv.mappings.isEmpty = true
  · rw [if_pos hE]
    rfl
  · rw [if_neg hE, List.filterMap_cons, hempty, List.filterMap_map]
    exact filterMap_none_of_none _ _ fun p _ => hname p

theorem filterMap_parse_bracket_self (name : Line) (entries : List (Line × Line))
    (hwfE : ∀ p ∈ entries, p.1 ≠ [] ∧ (∀ c ∈ p.1, c ≠ ']') ∧ (∀ c ∈ p.2, c ≠ '"'))
    (hempty : parseKeyed name emptyLine = none) :
    (bracketBlock name entries).filterMap (parseKeyed name) = entries := by
  unfold bracketBlock
  by_cases hE : entries.isEmpty = true
  · rw [if_pos hE, List.isEmpty_iff.mp hE]
    rfl
  · rw [if_neg hE]
    simp only [List.filterMap_cons, hempty, List.filterMap_append, List.filterMap_map,
      List.filterMap_nil, List.append_nil]
    rw [show parseKeyed name ∘ mkAssign name
      = fun p => parseKeyed name (mkAssign name p) from rfl]
    exact filterMap_some_id _ _ fun p hp =>
      parse_mkAssign name p (hwfE p hp).1 (hwfE p hp).2.1 (hwfE p hp).2.2

theorem filterMap_parse_bracket_none (bname name : Line) (entries : List (Line × Line))
    (hname : ∀ p : Line × Line, parseKeyed name (mkAssign bname p) = none)
    (hempty : parseKeyed name emptyLine = none) :
    (bracketBlock bname entries).filterMap (parseKeyed name) = [] := by
  unfold bracketBlock
  by_cases hE : entries.isEmpty = true
  · rw [if_pos hE]
    rfl
  · rw [if_neg hE]
    simp only [List.filterMap_cons, hempty, List.filterMap_append, List.filterMap_map,
      List.filterMap_nil, List.append_nil]
    rw [show parseKeyed name ∘ mkAssign bname
      = fun p => parseKeyed name (mkAssign bname p) from rfl]
    exact filterMap_none_of_none _ _ fun p _ => hname p

theorem drop_scalar_out (v x : Line) : (v ++ eqc :: x).drop (v.length + 1) = x := by
  have he : v ++ eqc :: x = (v ++ [eqc]) ++ x := by
    rw [List.append_assoc]
    rfl
  have hl : (v ++ [eqc]).length = v.length + 1 := by simp
  rw [he, ← hl, List.drop_left]

theorem EntryWF.core {p : Line × Line} (h : EntryWF p) :
    p.1 ≠ [] ∧ (∀ c ∈ p.1, c ≠ ']') ∧ (∀ c ∈ p.2, c ≠ '"') :=
  ⟨h.1, h.2.1, h.2.2.1⟩

/-! ## Tameness of the merge output

Every line the merger emits on a tame user document is itself tame,
so the re-extraction of the output is again line-confined. -/

theorem extract_maps_wf (u : Document) (hu : tame u = true) :
    ∀ p ∈ (extractUserValues u).mappings, EntryWF p := by
  have hnl : ∀ l ∈ u, noNewline l = true := fun l hl =>
    (tameLine_parts l (List.all_eq_true.mp hu l hl)).1
  have hb : (extractUserValues u).mappings = lineEntries mapsName u := tame_raw_maps u hu
  rw [hb]
  exact lineEntries_wf mapsName u hnl

theorem extract_ide_wf (u : Document) (hu : tame u = true) :
    ∀ p ∈ (extractUserValues u).ide_configs, EntryWF p := by
  have hnl : ∀ l ∈ u, noNewline l = true := fun l hl =>
    (tameLine_parts l (List.all_eq_true.mp hu l hl)).1
  have hb : (extractUserValues u).ide_configs
      = resolveEntries (lineEntries mapsName u) (lineEntries ideName u) := by
    show resolveEntries (rawEntries mapsName u) (rawEntries ideName u) = _
    rw [tame_raw_maps u hu, tame_raw_ide u hu]
  rw [hb]
  exact resolveEntries_wf _ _ (lineEntries_wf mapsName u hnl) (lineEntries_wf ideName u hnl)

theorem extract_cfg_wf (u : Document) (hu : tame u = true) :
    ∀ p ∈ (extractUserValues u).repo_configs, EntryWF p := by
  have hnl : ∀ l ∈ u, noNewline l = true := fun l hl =>
    (tameLine_parts l (List.all_eq_true.mp hu l hl)).1
  have hb : (extractUserValues u).repo_configs
      = resolveEntries (lineEntries mapsName u) (lineEntries cfgName u) := by
    show resolveEntries (rawEntries mapsName u) (rawEntries cfgName u) = _
    rw [tame_raw_maps u hu, tame_raw_cfg u hu]
  rw [hb]
  exact resolveEntries_wf _ _ (lineEntries_wf mapsName u hnl) (lineEntries_wf cfgName u hnl)

theorem extract_mods_wf (u : Document) (hu : tame u = true) :
    ∀ p ∈ (extractUserValues u).repo_modules, EntryWF p := by
  have hnl : ∀ l ∈ u, noNewline l = true := fun l hl =>
    (tameLine_parts l (List.all_eq_true.mp hu l hl)).1
  have hb : (extractUserValues u).repo_modules
      = resolveEntries (lineEntries mapsName u) (lineEntries modsName u) := by
    show resolveEntries (rawEntries mapsName u) (rawEntries modsName u) = _
    rw [tame_raw_maps u hu, tame_raw_mods u hu]
  rw [hb]
  exact resolveEntries_wf _ _ (lineEntries_wf mapsName u hnl) (lineEntries_wf modsName u hnl)

theorem keyClosed_of_not_pre (name l : Line)
    (h : isPre (name ++ [lbrack]) l = false) : keyClosed name l = true := by
  simp [keyClosed, h]

theorem keyClosed_of_parse (name l : Line) (kv : Line × Line)
    (h : parseKeyed name l = some kv) : keyClosed name l = true := by
  simp [keyClosed, h]

theorem tameLine_scalar (var val : Line) (hvar : var ∈ scalarVars)
    (hval : noNewline val = true) : tameLine (var ++ eqc :: val) = true := by
  simp only [scalarVars, List.mem_cons, List.not_mem_nil, or_false] at hvar
  have hnn : noNewline (var ++ eqc :: val) = true := by
    simp only [noNewline, List.all_append, List.all_cons, Bool.and_eq_true]
    exact ⟨by rcases hvar with rfl | rfl | rfl | rfl <;> decide, by decide, hval⟩
  have hm : keyClosed mapsName (var ++ eqc :: val) = true :=
    keyClosed_of_not_pre _ _ (isPre_pat_scalar_out _ _ _
      (by rcases hvar with rfl | rfl | rfl | rfl <;> decide))
  have hi : keyClosed ideName (var ++ eqc :: val) = true :=
    keyClosed_of_not_pre _ _ (isPre_pat_scalar_out _ _ _
      (by rcases hvar with rfl | rfl | rfl | rfl <;> decide))
  have hc : keyClosed cfgName (var ++ eqc :: val) = true :=
    keyClosed_of_not_pre _ _ (isPre_pat_scalar_out _ _ _
      (by rcases hvar with rfl | rfl | rfl | rfl <;> decide))
  have hmo : keyClosed modsName (var ++ eqc :: val) = true :=
    keyClosed_of_not_pre _ _ (isPre_pat_scalar_out _ _ _
      (by rcases hvar with rfl | rfl | rfl | rfl <;> decide))
  simp [tameLine, hnn, hm, hi, hc, hmo]

theorem tameLine_mkAssign (name : Line)
    (hname : name = mapsName ∨ name = ideName ∨ name = cfgName ∨ name = modsName)
    (p : Line × Line) (hp : EntryWF p) : tameLine (mkAssign name p) = true := by
  obtain ⟨k, v⟩ := p
  obtain ⟨hk1, hk2, hv, hnk, hnv⟩ := hp
  have hparse := parse_mkAssign name (k, v) hk1 hk2 hv
  have hnm : ∀ c ∈ name, (!(c = newl)) = true := by
    rcases hname with rfl | rfl | rfl | rfl <;> decide
  have hknl : ∀ c ∈ k, (!(c = newl)) = true := by
    simp only [noNewline, List.all_eq_true] at hnk
    exact hnk
  have hvnl : ∀ c ∈ v, (!(c = newl)) = true := by
    simp only [noNewline, List.all_eq_true] at hnv
    exact hnv
  have hnn : noNewline (mkAssign name (k, v)) = true := by
    simp only [noNewline, List.all_eq_true]
    intro c hc
    rw [mkAssign_eq] at hc
    simp only [List.mem_append, List.mem_cons, List.not_mem_nil, or_false] at hc
    rcases hc with (hc | rfl) | hc | rfl | rfl | rfl | hc | rfl
    · exact hnm c hc
    · decide
    · exact hknl c hc
    · decide
    · decide
    · decide
    · exact hvnl c hc
    · decide
  have hall : ∀ nm : Line, nm = mapsName ∨ nm = ideName ∨ nm = cfgName ∨ nm = modsName →
      keyClosed nm (mkAssign name (k, v)) = true := by
    intro nm hnm'
    by_cases he : nm = name
    · subst he
      exact keyClosed_of_parse _ _ _ hparse
    · refine keyClosed_of_not_pre _ _ (isPre_mkAssign_other _ _ _ ?_)
      rcases hnm' with rfl | rfl | rfl | rfl <;> rcases hname with rfl | rfl | rfl | rfl <;>
        first
          | exact absurd rfl he
          | decide
  simp [tameLine, hnn, hall mapsName (Or.inl rfl), hall ideName (Or.inr (Or.inl rfl)),
    hall cfgName (Or.inr (Or.inr (Or.inl rfl))), hall modsName (Or.inr (Or.inr (Or.inr rfl)))]

theorem tameLine_mapsBlock (uv : UserValues) (hwf : ∀ p ∈ uv.mappings, EntryWF p) :
    ∀ l ∈ mapsBlock uv, tameLine l = true := by
  intro l hl
  unfold mapsBlock at hl
  split at hl
  · simp at hl
  · simp only [List.mem_cons, List.mem_map] at hl
    rcases hl with rfl | ⟨p, hp, rfl⟩
    · decide
    · exact tameLine_mkAssign mapsName (Or.inl rfl) p (hwf p hp)

theorem tameLine_bracketBlock (name : Line)
    (hname : name = mapsName ∨ name = ideName ∨ name = cfgName ∨ name = modsName)
    (entries : List (Line × Line)) (hwf : ∀ p ∈ entries, EntryWF p) :
    ∀ l ∈ bracketBlock name entries, tameLine l = true := by
  intro l hl
  unfold bracketBlock at hl
  split at hl
  · simp at hl
  · simp only [List.mem_cons, List.mem_append, List.mem_map, List.not_mem_nil,
      or_false] at hl
    rcases hl with rfl | ⟨p, hp, rfl⟩ | rfl
    · decide
    · exact tameLine_mkAssign name hname p (hwf p hp)
    · decide

set_option maxHeartbeats 2000000 in
/-- On a tame user document with marker-free scalar values, every line
of the merge output is tame. -/
theorem tame_normalize (u : Document) (hu : tame u = true)
    (hv : ∀ p ∈ (extractUserValues u).simple, containsSub mapMarker p.2 = false) :
    tame (normalize u exampleConfig) = true := by
  have hnl : ∀ l ∈ u, noNewline l = true := fun l hl =>
    (tameLine_parts l (List.all_eq_true.mp hu l hl)).1
  have hsw : ∀ var val : Line, findScalar var u = some val → noNewline val = true := by
    intro var val hf
    unfold findScalar at hf
    rcases Option.map_eq_some'.mp hf with ⟨l0, hfind, hdrop⟩
    rw [← hdrop]
    exact noNewline_sub l0 _ (fun c hc => List.mem_of_mem_drop hc)
      (hnl l0 (List.mem_of_find?_eq_some hfind))
  have hv1 : noNewline ((findScalar cfgVerName u).getD (strL "1")) = true := by
    cases hf : findScalar cfgVerName u with
    | none => decide
    | some w => simpa using hsw _ _ hf
  have hv2 : noNewline ((findScalar gitUserName u).getD (strL "\"$\x7bUSER\x7d\"")) = true := by
    cases hf : findScalar gitUserName u with
    | none => decide
    | some w => simpa using hsw _ _ hf
  have hv3 : noNewline ((findScalar branchPreName u).getD (strL "\"$\x7bUSER\x7d\"")) = true := by
    cases hf : findScalar branchPreName u with
    | none => decide
    | some w => simpa using hsw _ _ hf
  have hv4 : noNewline ((findScalar baseDevName u).getD (strL "\"$HOME/dev\"")) = true := by
    cases hf : findScalar baseDevName u with
    | none => decide
    | some w => simpa using hsw _ _ hf
  rw [normalize_eq_skeleton u hv]
  simp only [tame, List.all_eq_true, List.forall_mem_append, List.forall_mem_cons]
  exact ⟨by decide, tameLine_scalar _ _ (by decide) hv1, by decide,
    tameLine_scalar _ _ (by decide) hv2, by decide,
    tameLine_scalar _ _ (by decide) hv3, by decide,
    tameLine_scalar _ _ (by decide) hv4, by decide,
    tameLine_mapsBlock _ (extract_maps_wf u hu), by decide,
    tameLine_bracketBlock ideName (Or.inr (Or.inl rfl)) _ (extract_ide_wf u hu), by decide,
    tameLine_bracketBlock cfgName (Or.inr (Or.inr (Or.inl rfl))) _ (extract_cfg_wf u hu),
    by decide,
    tameLine_bracketBlock modsName (Or.inr (Or.inr (Or.inr rfl))) _ (extract_mods_wf u hu),
    by decide⟩


set_option maxHeartbeats 2000000 in
theorem raw_out_maps (u : Document) (hu : tame u = true)
    (hv : ∀ p ∈ (extractUserValues u).simple, containsSub mapMarker p.2 = false) :
    rawEntries mapsName (normalize u exampleConfig) = (extractUserValues u).mappings := by
  rw [tame_raw_maps _ (tame_normalize u hu hv)]
  rw [normalize_eq_skeleton u hv]
  unfold lineEntries
  have e0 : tSeg0.filterMap (parseKeyed mapsName) = [] := by decide
  have e1 : tSeg1.filterMap (parseKeyed mapsName) = [] := by decide
  have e2 : tSeg2.filterMap (parseKeyed mapsName) = [] := by decide
  have e3 : tSeg3.filterMap (parseKeyed mapsName) = [] := by decide
  have e4 : tSeg4.filterMap (parseKeyed mapsName) = [] := by decide
  have e5 : tSeg5.filterMap (parseKeyed mapsName) = [] := by decide
  have e6 : tSeg6.filterMap (parseKeyed mapsName) = [] := by decide
  have e7 : tSeg7.filterMap (parseKeyed mapsName) = [] := by decide
  have e8 : tSeg8.filterMap (parseKeyed mapsName) = [] := by decide
  have hb0 : (mapsBlock (extractUserValues u)).filterMap (parseKeyed mapsName) = (extractUserValues u).mappings :=
    filterMap_parse_mapsBlock _ fun p hp => EntryWF.core (extract_maps_wf u hu p hp)
  have hb1 : (bracketBlock ideName (extractUserValues u).ide_configs).filterMap
      (parseKeyed mapsName) = [] :=
    filterMap_parse_bracket_none _ _ _
      (fun p => parseKeyed_none_of_not_pre _ _ (isPre_mkAssign_other _ _ p (by decide)))
      (by decide)
  have hb2 : (bracketBlock cfgName (extractUserValues u).repo_configs).filterMap
      (parseKeyed mapsName) = [] :=
    filterMap_parse_bracket_none _ _ _
      (fun p => parseKeyed_none_of_not_pre _ _ (isPre_mkAssign_other _ _ p (by decide)))
      (by decide)
  have hb3 : (bracketBlock modsName (extractUserValues u).repo_modules).filterMap
      (parseKeyed mapsName) = [] :=
    filterMap_parse_bracket_none _ _ _
      (fun p => parseKeyed_none_of_not_pre _ _ (isPre_mkAssign_other _ _ p (by decide)))
      (by decide)
  simp +decide only [List.filterMap_append, List.filterMap_cons, parseKeyed_scalar_out,
    e0, e1, e2, e3, e4, e5, e6, e7, e8, hb0, hb1, hb2, hb3,
    List.nil_append, List.append_nil]

set_option maxHeartbeats 2000000 in
theorem raw_out_ide (u : Document) (hu : tame u = true)
    (hv : ∀ p ∈ (extractUserValues u).simple, containsSub mapMarker p.2 = false) :
    rawEntries ideName (normalize u exampleConfig) = (extractUserValues u).ide_configs := by
  rw [tame_raw_ide _ (tame_normalize u hu hv)]
  rw [normalize_eq_skeleton u hv]
  unfold lineEntries
  have e0 : tSeg0.filterMap (parseKeyed ideName) = [] := by decide
  have e1 : tSeg1.filterMap (parseKeyed ideName) = [] := by decide
  have e2 : tSeg2.filterMap (parseKeyed ideName) = [] := by decide
  have e3 : tSeg3.filterMap (parseKeyed ideName) = [] := by decide
  have e4 : tSeg4.filterMap (parseKeyed ideName) = [] := by decide
  have e5 : tSeg5.filterMap (parseKeyed ideName) = [] := by decide
  have e6 : tSeg6.filterMap (parseKeyed ideName) = [] := by decide
  have e7 : tSeg7.filterMap (parseKeyed ideName) = [] := by decide
  have e8 : tSeg8.filterMap (parseKeyed ideName) = [] := by decide
  have hb0 : (mapsBlock (extractUserValues u)).filterMap (parseKeyed ideName) = [] :=
    filterMap_parse_mapsBlock_none _ _
      (fun p => parseKeyed_none_of_not_pre _ _ (isPre_mkAssign_other _ _ p (by decide)))
      (by decide)
  have hb1 : (bracketBlock ideName (extractUserValues u).ide_configs).filterMap
      (parseKeyed ideName) = (extractUserValues u).ide_configs :=
    filterMap_parse_bracket_self _ _
      (fun p hp => EntryWF.core (extract_ide_wf u hu p hp)) (by decide)
  have hb2 : (bracketBlock cfgName (extractUserValues u).repo_configs).filterMap
      (parseKeyed ideName) = [] :=
    filterMap_parse_bracket_none _ _ _
      (fun p => parseKeyed_none_of_not_pre _ _ (isPre_mkAssign_other _ _ p (by decide)))
      (by decide)
  have hb3 : (bracketBlock modsName (extractUserValues u).repo_modules).filterMap
      (parseKeyed ideName) = [] :=
    filterMap_parse_bracket_none _ _ _
      (fun p => parseKeyed_none_of_not_pre _ _ (isPre_mkAssign_other _ _ p (by decide)))
      (by decide)
  simp +decide only [List.filterMap_append, List.filterMap_cons, parseKeyed_scalar_out,
    e0, e1, e2, e3, e4, e5, e6, e7, e8, hb0, hb1, hb2, hb3,
    List.nil_append, List.append_nil]

set_option maxHeartbeats 2000000 in
theorem raw_out_cfg (u : Document) (hu : tame u = true)
    (hv : ∀ p ∈ (extractUserValues u).simple, containsSub mapMarker p.2 = false) :
    rawEntries cfgName (normalize u exampleConfig) = (extractUserValues u).repo_configs := by
  rw [tame_raw_cfg _ (tame_normalize u hu hv)]
  rw [normalize_eq_skeleton u hv]
  unfold lineEntries
  have e0 : tSeg0.filterMap (parseKeyed cfgName) = [] := by decide
  have e1 : tSeg1.filterMap (parseKeyed cfgName) = [] := by decide
  have e2 : tSeg2.filterMap (parseKeyed cfgName) = [] := by decide
  have e3 : tSeg3.filterMap (parseKeyed cfgName) = [] := by decide
  have e4 : tSeg4.filterMap (parseKeyed cfgName) = [] := by decide
  have e5 : tSeg5.filterMap (parseKeyed cfgName) = [] := by decide
  have e6 : tSeg6.filterMap (parseKeyed cfgName) = [] := by decide
  have e7 : tSeg7.filterMap (parseKeyed cfgName) = [] := by decide
  have e8 : tSeg8.filterMap (parseKeyed cfgName) = [] := by decide
  have hb0 : (mapsBlock (extractUserValues u)).filterMap (parseKeyed cfgName) = [] :=
    filterMap_parse_mapsBlock_none _ _
      (fun p => parseKeyed_none_of_not_pre _ _ (isPre_mkAssign_other _ _ p (by decide)))
      (by decide)
  have hb1 : (bracketBlock ideName (extractUserValues u).ide_configs).filterMap
      (parseKeyed cfgName) = [] :=
    filterMap_parse_bracket_none _ _ _
      (fun p => parseKeyed_none_of_not_pre _ _ (isPre_mkAssign_other _ _ p (by decide)))
      (by decide)
  have hb2 : (bracketBlock cfgName (extractUserValues u).repo_configs).filterMap
      (parseKeyed cfgName) = (extractUserValues u).repo_configs :=
    filterMap_parse_bracket_self _ _
      (fun p hp => EntryWF.core (extract_cfg_wf u hu p hp)) (by decide)
  have hb3 : (bracketBlock modsName (extractUserValues u).repo_modules).filterMap
      (parseKeyed cfgName) = [] :=
    filterMap_parse_bracket_none _ _ _
      (fun p => parseKeyed_none_of_not_pre _ _ (isPre_mkAssign_other _ _ p (by decide)))
      (by decide)
  simp +decide only [List.filterMap_append, List.filterMap_cons, parseKeyed_scalar_out,
    e0, e1, e2, e3, e4, e5, e6, e7, e8, hb0, hb1, hb2, hb3,
    List.nil_append, List.append_nil]

set_option maxHeartbeats 2000000 in
theorem raw_out_mods (u : Document) (hu : tame u = true)
    (hv : ∀ p ∈ (extractUserValues u).simple, containsSub mapMarker p.2 = false) :
    rawEntries modsName (normalize u exampleConfig) = (extractUserValues u).repo_modules := by
  rw [tame_raw_mods _ (tame_normalize u hu hv)]
  rw [normalize_eq_skeleton u hv]
  unfold lineEntries
  have e0 : tSeg0.filterMap (parseKeyed modsName) = [] := by decide
  have e1 : tSeg1.filterMap (parseKeyed modsName) = [] := by decide
  have e2 : tSeg2.filterMap (parseKeyed modsName) = [] := by decide
  have e3 : tSeg3.filterMap (parseKeyed modsName) = [] := by decide
  have e4 : tSeg4.filterMap (parseKeyed modsName) = [] := by decide
  have e5 : tSeg5.filterMap (parseKeyed modsName) = [] := by decide
  have e6 : tSeg6.filterMap (parseKeyed modsName) = [] := by decide
  have e7 : tSeg7.filterMap (parseKeyed modsName) = [] := by decide
  have e8 : tSeg8.filterMap (parseKeyed modsName) = [] := by decide
  have hb0 : (mapsBlock (extractUserValues u)).filterMap (parseKeyed modsName) = [] :=
    filterMap_parse_mapsBlock_none _ _
      (fun p => parseKeyed_none_of_not_pre _ _ (isPre_mkAssign_other _ _ p (by decide)))
      (by decide)
  have hb1 : (bracketBlock ideName (extractUserValues u).ide_configs).filterMap
      (parseKeyed modsName) = [] :=
    filterMap_parse_bracket_none _ _ _
      (fun p => parseKeyed_none_of_not_pre _ _ (isPre_mkAssign_other _ _ p (by decide)))
      (by decide)
  have hb2 : (bracketBlock cfgName (extractUserValues u).repo_configs).filterMap
      (parseKeyed modsName) = [] :=
    filterMap_parse_bracket_none _ _ _
      (fun p => parseKeyed_none_of_not_pre _ _ (isPre_mkAssign_other _ _ p (by decide)))
      (by decide)
  have hb3 : (bracketBlock modsName (extractUserValues u).repo_modules).filterMap
      (parseKeyed modsName) = (extractUserValues u).repo_modules :=
    filterMap_parse_bracket_self _ _
      (fun p hp => EntryWF.core (extract_mods_wf u hu p hp)) (by decide)
  simp +decide only [List.filterMap_append, List.filterMap_cons, parseKeyed_scalar_out,
    e0, e1, e2, e3, e4, e5, e6, e7, e8, hb0, hb1, hb2, hb3,
    List.nil_append, List.append_nil]

set_option maxHeartbeats 2000000 in
theorem findScalar_out_cv (u : Document)
    (hv : ∀ p ∈ (extractUserValues u).simple, containsSub mapMarker p.2 = false) :
    findScalar cfgVerName (normalize u exampleConfig)
      = some ((findScalar cfgVerName u).getD (strL "1")) := by
  rw [normalize_eq_skeleton u hv]
  unfold findScalar
  have e0 : tSeg0.find? (fun l => isPre (cfgVerName ++ [eqc]) l) = none := by decide
  have e1 : tSeg1.find? (fun l => isPre (cfgVerName ++ [eqc]) l) = none := by decide
  have e2 : tSeg2.find? (fun l => isPre (cfgVerName ++ [eqc]) l) = none := by decide
  have e3 : tSeg3.find? (fun l => isPre (cfgVerName ++ [eqc]) l) = none := by decide
  simp +decide only [List.find?_append, List.find?_cons, e0, e1, e2, e3,
    isPre_pat_scalar_out, isPre_self_scalar_out, Option.none_or, Option.or_some,
    if_true, if_false, Option.map_some', drop_scalar_out]

set_option maxHeartbeats 2000000 in
theorem findScalar_out_gu (u : Document)
    (hv : ∀ p ∈ (extractUserValues u).simple, containsSub mapMarker p.2 = false) :
    findScalar gitUserName (normalize u exampleConfig)
      = some ((findScalar gitUserName u).getD (strL "\"$\x7bUSER\x7d\"")) := by
  rw [normalize_eq_skeleton u hv]
  unfold findScalar
  have e0 : tSeg0.find? (fun l => isPre (gitUserName ++ [eqc]) l) = none := by decide
  have e1 : tSeg1.find? (fun l => isPre (gitUserName ++ [eqc]) l) = none := by decide
  have e2 : tSeg2.find? (fun l => isPre (gitUserName ++ [eqc]) l) = none := by decide
  have e3 : tSeg3.find? (fun l => isPre (gitUserName ++ [eqc]) l) = none := by decide
  simp +decide only [List.find?_append, List.find?_cons, e0, e1, e2, e3,
    isPre_pat_scalar_out, isPre_self_scalar_out, Option.none_or, Option.or_some,
    if_true, if_false, Option.map_some', drop_scalar_out]

set_option maxHeartbeats 2000000 in
theorem findScalar_out_bp (u : Document)
    (hv : ∀ p ∈ (extractUserValues u).simple, containsSub mapMarker p.2 = false) :
    findScalar branchPreName (normalize u exampleConfig)
      = some ((findScalar branchPreName u).getD (strL "\"$\x7bUSER\x7d\"")) := by
  rw [normalize_eq_skeleton u hv]
  unfold findScalar
  have e0 : tSeg0.find? (fun l => isPre (branchPreName ++ [eqc]) l) = none := by decide
  have e1 : tSeg1.find? (fun l => isPre (branchPreName ++ [eqc]) l) = none := by decide
  have e2 : tSeg2.find? (fun l => isPre (branchPreName ++ [eqc]) l) = none := by decide
  have e3 : tSeg3.find? (fun l => isPre (branchPreName ++ [eqc]) l) = none := by decide
  simp +decide only [List.find?_append, List.find?_cons, e0, e1, e2, e3,
    isPre_pat_scalar_out, isPre_self_scalar_out, Option.none_or, Option.or_some,
    if_true, if_false, Option.map_some', drop_scalar_out]

set_option maxHeartbeats 2000000 in
theorem findScalar_out_bd (u : Document)
    (hv : ∀ p ∈ (extractUserValues u).simple, containsSub mapMarker p.2 = false) :
    findScalar baseDevName (normalize u exampleConfig)
      = some ((findScalar baseDevName u).getD (strL "\"$HOME/dev\"")) := by
  rw [normalize_eq_skeleton u hv]
  unfold findScalar
  have e0 : tSeg0.find? (fun l => isPre (baseDevName ++ [eqc]) l) = none := by decide
  have e1 : tSeg1.find? (fun l => isPre (baseDevName ++ [eqc]) l) = none := by decide
  have e2 : tSeg2.find? (fun l => isPre (baseDevName ++ [eqc]) l) = none := by decide
  have e3 : tSeg3.find? (fun l => isPre (baseDevName ++ [eqc]) l) = none := by decide
  simp +decide only [List.find?_append, List.find?_cons, e0, e1, e2, e3,
    isPre_pat_scalar_out, isPre_self_scalar_out, Option.none_or, Option.or_some,
    if_true, if_false, Option.map_some', drop_scalar_out]

set_option maxHeartbeats 2000000 in
/-- C4 (amended): merging is idempotent on the fixed template for
every tame user document (no embedded newlines, every keyed
assignment completed on its own line) whose extracted scalar values
do not contain the guard-marker text and whose alias shorthands are
disjoint from the alias canonical names: treating the merge output as
a new user document and merging it again yields the identical
output. -/
theorem merge_idempotent (u : Document) (hu : tame u = true)
    (hv : ∀ p ∈ (extractUserValues u).simple, containsSub mapMarker p.2 = false)
    (hdisj : ∀ p ∈ (extractUserValues u).mappings,
        p.1 ∉ ((extractUserValues u).mappings).map Prod.snd) :
    normalize (normalize u exampleConfig) exampleConfig = normalize u exampleConfig := by
  have hm := raw_out_maps u hu hv
  have hi := raw_out_ide u hu hv
  have hc := raw_out_cfg u hu hv
  have hmo := raw_out_mods u hu hv
  have hcv := findScalar_out_cv u hv
  have hgu := findScalar_out_gu u hv
  have hbp := findScalar_out_bp u hv
  have hbd := findScalar_out_bd u hv
  have hmaps : (extractUserValues (normalize u exampleConfig)).mappings
      = (extractUserValues u).mappings := hm
  have hide : (extractUserValues (normalize u exampleConfig)).ide_configs
      = (extractUserValues u).ide_configs := by
    show resolveEntries (rawEntries mapsName (normalize u exampleConfig))
      (rawEntries ideName (normalize u exampleConfig)) = _
    rw [hm, hi]
    exact resolveEntries_idem _ (rawEntries ideName u) hdisj
  have hcfg : (extractUserValues (normalize u exampleConfig)).repo_configs
      = (extractUserValues u).repo_configs := by
    show resolveEntries (rawEntries mapsName (normalize u exampleConfig))
      (rawEntries cfgName (normalize u exampleConfig)) = _
    rw [hm, hc]
    exact resolveEntries_idem _ (rawEntries cfgName u) hdisj
  have hmods : (extractUserValues (normalize u exampleConfig)).repo_modules
      = (extractUserValues u).repo_modules := by
    show resolveEntries (rawEntries mapsName (normalize u exampleConfig))
      (rawEntries modsName (normalize u exampleConfig)) = _
    rw [hm, hmo]
    exact resolveEntries_idem _ (rawEntries modsName u) hdisj
  have hv' : ∀ p ∈ (extractUserValues (normalize u exampleConfig)).simple,
      containsSub mapMarker p.2 = false := by
    intro p hp
    obtain ⟨k, w⟩ := p
    obtain ⟨hk, hw⟩ := (mem_simple_iff _ k w).mp hp
    simp only [scalarVars, List.mem_cons, List.not_mem_nil, or_false] at hk
    rcases hk with rfl | rfl | rfl | rfl
    · rw [hgu] at hw
      injection hw with hw
      subst hw
      cases hfu : findScalar gitUserName u with
      | none =>
        simp only [hfu, Option.getD_none]
        decide
      | some w' =>
        simp only [hfu, Option.getD_some]
        exact hv (gitUserName, w') ((mem_simple_iff u _ _).mpr ⟨by decide, hfu⟩)
    · rw [hbp] at hw
      injection hw with hw
      subst hw
      cases hfu : findScalar branchPreName u with
      | none =>
        simp only [hfu, Option.getD_none]
        decide
      | some w' =>
        simp only [hfu, Option.getD_some]
        exact hv (branchPreName, w') ((mem_simple_iff u _ _).mpr ⟨by decide, hfu⟩)
    · rw [hbd] at hw
      injection hw with hw
      subst hw
      cases hfu : findScalar baseDevName u with
      | none =>
        simp only [hfu, Option.getD_none]
        decide
      | some w' =>
        simp only [hfu, Option.getD_some]
        exact hv (baseDevName, w') ((mem_simple_iff u _ _).mpr ⟨by decide, hfu⟩)
    · rw [hcv] at hw
      injection hw with hw
      subst hw
      cases hfu : findScalar cfgVerName u with
      | none =>
        simp only [hfu, Option.getD_none]
        decide
      | some w' =>
        simp only [hfu, Option.getD_some]
        exact hv (cfgVerName, w') ((mem_simple_iff u _ _).mpr ⟨by decide, hfu⟩)
  rw [normalize_eq_skeleton (normalize u exampleConfig) hv']
  rw [hcv, hgu, hbp, hbd]
  simp only [Option.getD_some]
  rw [show mapsBlock (extractUserValues (normalize u exampleConfig))
      = mapsBlock (extractUserValues u) from by unfold mapsBlock; rw [hmaps]]
  rw [hide, hcfg, hmods]
  rw [normalize_eq_skeleton u hv]

set_option maxRecDepth 1000000 in
/-- Witness for the amended C4 at a concrete user document. -/
theorem merge_idempotent_witness :
    normalize (normalize demoUser exampleConfig) exampleConfig
      = normalize demoUser exampleConfig :=
  merge_idempotent demoUser (by decide) (by decide) (by decide)

set_option maxRecDepth 1000000 in
/-- C4 counterexample: on `chainUser` the re-extraction resolves the
already-resolved key a second time, so merging the merge output again
changes it. -/
theorem merge_not_idempotent :
    ¬ (normalize (normalize chainUser exampleConfig) exampleConfig
        = normalize chainUser exampleConfig) := by
  decide

/-! ## Comment lines and extraction -/

theorem parseKeyed_comment (name l : Line) (hn : isPre (strL "R") name = true)
    (hl : isPre (strL "#") l = true) : parseKeyed name l = none := by
  refine parseKeyed_none_of_not_pre name l ?_
  have h1 : name.head? = some 'R' := head_of_isPre 'R' [] name hn
  have h2 : l.head? = some '#' := head_of_isPre '#' [] l hl
  cases name with
  | nil => simp at h1
  | cons c nm =>
    simp only [List.head?_cons, Option.some.injEq] at h1
    subst h1
    exact isPre_false_of_head 'R' _ l '#' h2 (by decide)

/-- C10 counterexample: on `cmtSpanDoc` the raw-text match opened on
the first line is closed by the quote inside the comment line, so the
comment line contributes to the extracted value, and deleting the
comment lines changes the extraction record. -/
theorem comment_lines_change_extraction :
    ¬ (extractUserValues (cmtSpanDoc.filter fun l => !isPre (strL "#") l)
        = extractUserValues cmtSpanDoc) := by
  decide

/-- C10 (amended): on a tame document (no embedded newlines, every
keyed assignment completed on its own line) a line beginning with the
comment character contributes no extracted value: removing all such
lines leaves the extraction record unchanged, because every
extraction match is then confined to a line and anchored at its
start, and no pattern starts with `#`. -/
theorem comment_lines_no_extraction (doc : Document) (hd : tame doc = true) :
    extractUserValues (doc.filter fun l => !isPre (strL "#") l) = extractUserValues doc := by
  have hdf : tame (doc.filter fun l => !isPre (strL "#") l) = true := by
    simp only [tame, List.all_eq_true] at hd ⊢
    intro l hl
    exact hd l (List.mem_of_mem_filter hl)
  have hraw : ∀ name : Line, isPre (strL "R") name = true →
      lineEntries name (doc.filter fun l => !isPre (strL "#") l) = lineEntries name doc := by
    intro name hn
    unfold lineEntries
    apply filterMap_filter_none
    intro x _ hkeep
    have hx' : isPre (strL "#") x = true := by simpa using hkeep
    exact parseKeyed_comment name x hn hx'
  have hscal : ∀ var : Line, isPre (strL "#") (var ++ [eqc]) = false →
      findScalar var (doc.filter fun l => !isPre (strL "#") l) = findScalar var doc := by
    intro var hv
    unfold findScalar
    rw [find?_filter_same]
    intro x _ hkeep
    have hx' : isPre (strL "#") x = true := by simpa using hkeep
    cases hve : var ++ [eqc] with
    | nil => exact absurd hve (by simp)
    | cons e vr =>
      rw [hve] at hv
      have he : e ≠ '#' := by
        intro hh
        subst hh
        have hv' : isPre ('#' :: []) ('#' :: vr) = false := hv
        simp [isPre] at hv'
      exact isPre_false_of_heads e '#' vr [] x he hx'
  unfold extractUserValues
  rw [tame_raw_maps _ hdf, tame_raw_maps _ hd, tame_raw_ide _ hdf, tame_raw_ide _ hd,
      tame_raw_cfg _ hdf, tame_raw_cfg _ hd, tame_raw_mods _ hdf, tame_raw_mods _ hd]
  rw [hraw mapsName (by decide), hraw ideName (by decide), hraw cfgName (by decide),
      hraw modsName (by decide)]
  have hsimple :
      (scalarVars.filterMap fun v =>
        (findScalar v (doc.filter fun l => !isPre (strL "#") l)).map fun w => (v, w)) =
      scalarVars.filterMap fun v => (findScalar v doc).map fun w => (v, w) := by
    apply List.filterMap_congr
    intro v hv
    simp only [scalarVars, List.mem_cons, List.not_mem_nil, or_false] at hv
    rcases hv with rfl | rfl | rfl | rfl <;> rw [hscal _ (by decide)]
  rw [hsimple]

/-- Witness for the amended C10 at a concrete tame document with
comment lines. -/
theorem comment_lines_no_extraction_witness :
    extractUserValues (demoUser.filter fun l => !isPre (strL "#") l)
      = extractUserValues demoUser :=
  comment_lines_no_extraction demoUser (by decide)

end WorktreeTools
